import Mathlib

set_option maxRecDepth 8192

/-!
Verification development for the pgdumb streaming rewriter of PostgreSQL
custom-format dumps (source file `pgdumb.py`).

Modelling conventions of the shallow embedding:

* Byte strings are `List Nat` (each element a byte value 0..255; the embedding
  does not need to enforce the bound because every byte produced by the code
  is reduced mod 256 and input bytes are universally quantified).
* A Python `BinaryIO` read stream is a `List Nat`; `stream.read(n)` takes the
  first `n` bytes (all remaining bytes when `n` is negative, matching
  `io.BytesIO`).  The `StreamCombiner` over `(leftover, upstream)` is
  collapsed into the concatenated list: for non-negative sizes the combiner
  refills short reads from the next stream, which is exactly `List.take` on
  the concatenation.
* Parsers (`DumpIO` readers, `HeaderParser`, `TocParser`) are pure functions
  `List Nat → Except String (result × List Nat)` returning the parsed value
  and the rest of the stream; a raised `PgDumpError` is `Except.error` with
  the message text.
* The data-block engine threads an explicit `ProcState` holding the input
  stream, the bytes written to the output stream so far, and the ghost trace
  of all arguments handed to `DataProcessor.process`.  Results are `PRes`,
  which keeps the state on error: a Python exception does not undo writes
  already performed on the output stream.
* Unbounded `while` loops are given fuel; every call site passes fuel that is
  provably sufficient (each iteration consumes at least one byte, and the
  fuel is the byte count plus one).
* `zlib` is external to the source file: the decompressor object is an
  abstract state machine (`Decompressor`) and `zlib.compress` an abstract
  function, both universally quantified in the theorems.
* Python strings are kept as their UTF-8 byte lists; the strict Python UTF-8 decode
  is modelled by the strict `validUtf8` check (failure raises, as in the
  code).
-/

namespace Pgdumb

abbrev ByteStr := List Nat

abbrev Version := Nat × Nat × Nat

/-- Lexicographic comparison of version triples, as Python compares tuples. -/
def versionLt (a b : Version) : Bool :=
  if a.1 < b.1 then true
  else if a.1 = b.1 then
    if a.2.1 < b.2.1 then true
    else if a.2.1 = b.2.1 then decide (a.2.2 < b.2.2)
    else false
  else false

/-- Source `Constants.MAGIC_HEADER`, the five ASCII bytes of PGDMP. -/
def MAGIC_HEADER : ByteStr := [80, 71, 68, 77, 80]

/-- Source `Constants.CUSTOM_FORMAT`. -/
def CUSTOM_FORMAT : Nat := 1

/-- Source `Constants.ZLIB_CHUNK_SIZE`. -/
def ZLIB_CHUNK_SIZE : Int := 4096

/-- Source `Constants.DEFAULT_BUFFER_SIZE`. -/
def DEFAULT_BUFFER_SIZE : Int := 8192

/-- Source `CompressionMethod` enum. -/
inductive CompressionMethod where
  | none
  | gzip
  | zlib
  | lz4
deriving DecidableEq, Repr

/-- Source `SectionType` enum. -/
inductive SectionType where
  | preData
  | data
  | postData
  | none
deriving DecidableEq, Repr

/-- Python `stream.read(n)`: up to `n` bytes, everything for negative `n`
(`io.BytesIO` semantics; the `StreamCombiner` is collapsed, see the header
comment). -/
def pyRead (n : Int) (s : ByteStr) : ByteStr × ByteStr :=
  if n < 0 then (s, []) else (s.take n.toNat, s.drop n.toNat)

/-- The mutable size configuration of `DumpIO` (`int_size`, `offset_size`),
threaded explicitly because `HeaderParser.parse` reassigns the fields. -/
structure DumpIo where
  int_size : Nat := 4
  offset_size : Nat := 8
deriving DecidableEq, Repr

/-- Source `DumpIO.read_byte`. -/
def readByte (s : ByteStr) : Except String (Nat × ByteStr) :=
  match s with
  | [] => Except.error "Unexpected EOF while reading byte"
  | b :: rest => Except.ok (b, rest)

/-- The magnitude loop of `DumpIO.read_int`:
`for i in range(int_size): byte = read_byte(); if byte != 0: value += byte << (i * 8)`. -/
def readIntMagAux : Nat → Nat → Nat → ByteStr → Except String (Nat × ByteStr)
  | 0, _, value, s => Except.ok (value, s)
  | k + 1, i, value, s =>
    match readByte s with
    | Except.error e => Except.error e
    | Except.ok (byte_value, s) =>
      readIntMagAux k (i + 1)
        (if byte_value ≠ 0 then value + (byte_value <<< (i * 8)) else value) s

/-- Source `DumpIO.read_int`: sign byte then `int_size` little-endian magnitude bytes. -/
def DumpIo.read_int (io : DumpIo) (s : ByteStr) : Except String (Int × ByteStr) :=
  match readByte s with
  | Except.error e => Except.error e
  | Except.ok (sign, s) =>
    match readIntMagAux io.int_size 0 0 s with
    | Except.error e => Except.error e
    | Except.ok (value, s) =>
      Except.ok (if sign ≠ 0 then -(value : Int) else (value : Int), s)

/-- Continuation byte test for strict UTF-8 validation. -/
def isUtf8Cont (b : Nat) : Bool := 0x80 ≤ b && b ≤ 0xBF

/-- Strict UTF-8 well-formedness, the acceptance domain of Python
the strict Python UTF-8 decode (rejects overlong forms, surrogates and values
above U+10FFFF). -/
def validUtf8 : ByteStr → Bool
  | [] => true
  | b :: rest =>
    if b ≤ 0x7F then validUtf8 rest
    else if 0xC2 ≤ b && b ≤ 0xDF then
      match rest with
      | c1 :: r => isUtf8Cont c1 && validUtf8 r
      | [] => false
    else if b = 0xE0 then
      match rest with
      | c1 :: c2 :: r => (0xA0 ≤ c1 && c1 ≤ 0xBF) && isUtf8Cont c2 && validUtf8 r
      | _ => false
    else if (0xE1 ≤ b && b ≤ 0xEC) || b = 0xEE || b = 0xEF then
      match rest with
      | c1 :: c2 :: r => isUtf8Cont c1 && isUtf8Cont c2 && validUtf8 r
      | _ => false
    else if b = 0xED then
      match rest with
      | c1 :: c2 :: r => (0x80 ≤ c1 && c1 ≤ 0x9F) && isUtf8Cont c2 && validUtf8 r
      | _ => false
    else if b = 0xF0 then
      match rest with
      | c1 :: c2 :: c3 :: r =>
        (0x90 ≤ c1 && c1 ≤ 0xBF) && isUtf8Cont c2 && isUtf8Cont c3 && validUtf8 r
      | _ => false
    else if 0xF1 ≤ b && b ≤ 0xF3 then
      match rest with
      | c1 :: c2 :: c3 :: r =>
        isUtf8Cont c1 && isUtf8Cont c2 && isUtf8Cont c3 && validUtf8 r
      | _ => false
    else if b = 0xF4 then
      match rest with
      | c1 :: c2 :: c3 :: r =>
        (0x80 ≤ c1 && c1 ≤ 0x8F) && isUtf8Cont c2 && isUtf8Cont c3 && validUtf8 r
      | _ => false
    else false

/-- Source `DumpIO.read_string`: signed length prefix, then that many bytes decoded
as UTF-8 (the decoded string is kept as its byte list). -/
def DumpIo.read_string (io : DumpIo) (s : ByteStr) : Except String (ByteStr × ByteStr) :=
  match io.read_int s with
  | Except.error e => Except.error e
  | Except.ok (length, s) =>
    if length ≤ 0 then Except.ok ([], s)
    else
      let (data, s) := pyRead length s
      if (data.length : Int) ≠ length then Except.error "short string read"
      else if validUtf8 data then Except.ok (data, s)
      else Except.error "Invalid UTF-8 string"

/-- The loop of `DumpIO.read_offset`. -/
def readOffsetAux : Nat → Nat → Nat → ByteStr → Except String (Nat × ByteStr)
  | 0, _, offset, s => Except.ok (offset, s)
  | k + 1, i, offset, s =>
    match readByte s with
    | Except.error e => Except.error e
    | Except.ok (byte_value, s) =>
      readOffsetAux k (i + 1) (offset ||| (byte_value <<< (i * 8))) s

/-- Source `DumpIO.read_offset`: `offset_size` little-endian bytes, unsigned. -/
def DumpIo.read_offset (io : DumpIo) (s : ByteStr) : Except String (Nat × ByteStr) :=
  readOffsetAux io.offset_size 0 0 s

/-- Source `DumpIO.write_int`: sign byte (1 when negative) then `int_size` bytes of
the absolute value, little-endian, each masked with `0xFF`. -/
def DumpIo.write_int (io : DumpIo) (value : Int) : ByteStr :=
  (if value < 0 then 1 else 0) ::
    (List.range io.int_size).map (fun i => (value.natAbs >>> (i * 8)) &&& 0xFF)

/-! ### Round-trip of the integer codec (claim C8) -/

/-- Little-endian value of a byte list. -/
def leVal : ByteStr → Nat
  | [] => 0
  | b :: bs => b + 256 * leVal bs

theorem readIntMagAux_append (bs : ByteStr) : ∀ (i value : Nat) (rest : ByteStr),
    readIntMagAux bs.length i value (bs ++ rest) =
      Except.ok (value + leVal bs * 2 ^ (i * 8), rest) := by
  induction bs with
  | nil => intro i value rest; simp [readIntMagAux, leVal]
  | cons b bs ih =>
    intro i value rest
    simp only [List.length_cons, List.cons_append, readIntMagAux, readByte]
    rw [ih]
    have hstep : (if b ≠ 0 then value + (b <<< (i * 8)) else value) =
        value + b * 2 ^ (i * 8) := by
      rcases eq_or_ne b 0 with h | h <;> simp [h, Nat.shiftLeft_eq]
    rw [hstep]
    have hpow : 2 ^ ((i + 1) * 8) = 2 ^ (i * 8) * 256 := by
      rw [add_mul, one_mul, pow_add]; norm_num
    congr 2
    rw [leVal, hpow]
    ring

theorem leVal_writeMag : ∀ (n v : Nat),
    leVal ((List.range n).map (fun i => (v >>> (i * 8)) &&& 0xFF)) = v % 2 ^ (n * 8) := by
  intro n
  induction n with
  | zero => intro v; simp [leVal, Nat.mod_one]
  | succ n ih =>
    intro v
    rw [List.range_succ_eq_map]
    simp only [List.map_cons, List.map_map]
    have hfun : ((fun i => (v >>> (i * 8)) &&& 0xFF) ∘ Nat.succ) =
        (fun i => ((v >>> 8) >>> (i * 8)) &&& 0xFF) := by
      funext i
      simp only [Function.comp]
      have h8 : Nat.succ i * 8 = 8 + i * 8 := by omega
      rw [h8, Nat.shiftRight_add]
    rw [hfun, leVal, ih (v >>> 8)]
    have h255 : v >>> (0 * 8) &&& 0xFF = v % 256 := by
      have h := Nat.and_pow_two_sub_one_eq_mod v 8
      norm_num at h
      simpa using h
    rw [h255]
    have hshift : v >>> 8 = v / 256 := by
      rw [Nat.shiftRight_eq_div_pow]
    have hpow : 2 ^ ((n + 1) * 8) = 256 * 2 ^ (n * 8) := by
      have h8 : (n + 1) * 8 = 8 + n * 8 := by omega
      rw [h8, pow_add]; norm_num
    rw [hshift, hpow, Nat.mod_mul]

theorem write_int_length (io : DumpIo) (v : Int) :
    (io.write_int v).length = 1 + io.int_size := by
  simp [DumpIo.write_int, Nat.add_comm]

theorem read_write_int (io : DumpIo) (v : Int) (rest : ByteStr)
    (h : v.natAbs < 256 ^ io.int_size) :
    io.read_int (io.write_int v ++ rest) = Except.ok (v, rest) := by
  unfold DumpIo.write_int DumpIo.read_int
  simp only [List.cons_append, readByte]
  have hlen : ((List.range io.int_size).map
      (fun i => (v.natAbs >>> (i * 8)) &&& 0xFF)).length = io.int_size := by
    simp
  have hm := readIntMagAux_append
    ((List.range io.int_size).map (fun i => (v.natAbs >>> (i * 8)) &&& 0xFF)) 0 0 rest
  rw [hlen] at hm
  rw [hm, leVal_writeMag]
  have hlt : v.natAbs < 2 ^ (io.int_size * 8) := by
    have : (256 : Nat) ^ io.int_size = 2 ^ (io.int_size * 8) := by
      rw [Nat.mul_comm, pow_mul]; norm_num
    omega
  rw [Nat.mod_eq_of_lt hlt]
  rcases lt_or_le v 0 with hv | hv
  · have h1 : (if v < 0 then 1 else 0) = 1 := by simp [hv]
    rw [h1]
    have : ((v.natAbs : Int)) = -v := Int.ofNat_natAbs_of_nonpos (le_of_lt hv)
    simp only [zero_add, pow_zero, mul_one]
    simp [this]
  · have h0 : (if v < 0 then 1 else 0) = 0 := by simp [not_lt.mpr hv]
    rw [h0]
    simp only [zero_add, pow_zero, mul_one]
    simp [Int.natAbs_of_nonneg hv]

/-- C8: reading back the bytes produced by `write_int` yields the original
integer for every representable integer (absolute value below
`256 ^ int_size`), with anything appended after them untouched, and
`write_int` always produces exactly `1 + int_size` bytes. -/
theorem c8_thm (io : DumpIo) (v : Int) (rest : ByteStr)
    (h : v.natAbs < 256 ^ io.int_size) :
    io.read_int (io.write_int v ++ rest) = Except.ok (v, rest) ∧
      (io.write_int v).length = 1 + io.int_size :=
  ⟨read_write_int io v rest h, write_int_length io v⟩

/-- Witness for C8 at `int_size = 4`, value `-300`. -/
theorem c8_witness :
    (DumpIo.mk 4 8).read_int ((DumpIo.mk 4 8).write_int (-300) ++ [9]) =
        Except.ok (-300, [9]) ∧
      ((DumpIo.mk 4 8).write_int (-300)).length = 1 + (DumpIo.mk 4 8).int_size :=
  c8_thm (DumpIo.mk 4 8) (-300) [9] (by decide)

/-! ### Header and TOC data model -/

/-- The creation timestamp as Python `datetime.datetime` receives it. -/
structure PyDateTime where
  year : Int
  month : Int
  day : Int
  hour : Int
  minute : Int
  second : Int
deriving DecidableEq, Repr

def isLeapYear (y : Int) : Bool := y % 4 == 0 && (y % 100 != 0 || y % 400 == 0)

def daysInMonth (y m : Int) : Int :=
  if m = 2 then (if isLeapYear y then 29 else 28)
  else if m = 4 ∨ m = 6 ∨ m = 9 ∨ m = 11 then 30
  else 31

/-- Acceptance condition of the `datetime.datetime(...)` constructor. -/
def validDateTime (d : PyDateTime) : Bool :=
  decide (1 ≤ d.year ∧ d.year ≤ 9999 ∧ 1 ≤ d.month ∧ d.month ≤ 12 ∧
    1 ≤ d.day ∧ d.day ≤ daysInMonth d.year d.month ∧
    0 ≤ d.hour ∧ d.hour < 24 ∧ 0 ≤ d.minute ∧ d.minute < 60 ∧
    0 ≤ d.second ∧ d.second < 60)

/-- Source `Header` dataclass (strings kept as byte lists). -/
structure Header where
  magic : ByteStr
  version : Version
  database_name : ByteStr
  server_version : ByteStr
  pgdump_version : ByteStr
  compression_method : CompressionMethod
  create_date : PyDateTime
  int_size : Nat := 4
  offset_size : Nat := 8
deriving DecidableEq, Repr

/-- Source `TocEntry` dataclass.  The Lean field for `section` is `section_` and the
one for `namespace` is `namespace_`, because both words are Lean keywords. -/
structure TocEntry where
  dump_id : Int
  section_ : SectionType
  had_dumper : Bool
  tag : Option ByteStr := Option.none
  tablespace : Option ByteStr := Option.none
  namespace_ : Option ByteStr := Option.none
  tableam : Option ByteStr := Option.none
  owner : Option ByteStr := Option.none
  desc : Option ByteStr := Option.none
  defn : Option ByteStr := Option.none
  drop_stmt : Option ByteStr := Option.none
  copy_stmt : Option ByteStr := Option.none
  with_oids : Option ByteStr := Option.none
  oid : Option ByteStr := Option.none
  table_oid : Option ByteStr := Option.none
  data_state : Nat := 0
  offset : Nat := 0
  dependencies : List Int := []
deriving DecidableEq, Repr

/-- Source `Dump` dataclass. -/
structure Dump where
  header : Header
  toc_entries : List TocEntry
deriving DecidableEq, Repr

/-- ASCII bytes of the string TABLE DATA. -/
def TABLE_DATA : ByteStr := [84, 65, 66, 76, 69, 32, 68, 65, 84, 65]

/-- ASCII bytes of the string COMMENT. -/
def COMMENT : ByteStr := [67, 79, 77, 77, 69, 78, 84]

/-- Source `Dump.get_table_data_entries`. -/
def Dump.get_table_data_entries (d : Dump) : List TocEntry :=
  d.toc_entries.filter (fun e => e.desc == some TABLE_DATA)

/-- Source `Dump.get_comment_entries`. -/
def Dump.get_comment_entries (d : Dump) : List TocEntry :=
  d.toc_entries.filter (fun e => e.desc == some COMMENT)

/-! ### Header parser -/

/-- Source `HeaderParser._parse_compression`. -/
def parseCompression (io : DumpIo) (version : Version) (s : ByteStr) :
    Except String (CompressionMethod × ByteStr) :=
  if ¬ versionLt version (1, 15, 0) then
    match readByte s with
    | Except.error e => Except.error e
    | Except.ok (compression_byte, s) =>
      if compression_byte = 0 then Except.ok (CompressionMethod.none, s)
      else if compression_byte = 1 then Except.ok (CompressionMethod.gzip, s)
      else if compression_byte = 2 then Except.ok (CompressionMethod.lz4, s)
      else if compression_byte = 3 then Except.ok (CompressionMethod.zlib, s)
      else Except.error "Unknown compression method"
  else
    match io.read_int s with
    | Except.error e => Except.error e
    | Except.ok (compression, s) =>
      if compression = -1 then Except.ok (CompressionMethod.zlib, s)
      else if compression = 0 then Except.ok (CompressionMethod.none, s)
      else if 1 ≤ compression ∧ compression ≤ 9 then Except.ok (CompressionMethod.gzip, s)
      else Except.error "Invalid compression level"

/-- Source `HeaderParser._parse_date`: seven signed ints (sec, min, hour, day, month,
year, isdst), composed with `year + 1900` and `month + 1`. -/
def parseDate (io : DumpIo) (s : ByteStr) : Except String (PyDateTime × ByteStr) :=
  match io.read_int s with
  | Except.error e => Except.error e
  | Except.ok (sec, s) =>
  match io.read_int s with
  | Except.error e => Except.error e
  | Except.ok (minute, s) =>
  match io.read_int s with
  | Except.error e => Except.error e
  | Except.ok (hour, s) =>
  match io.read_int s with
  | Except.error e => Except.error e
  | Except.ok (day, s) =>
  match io.read_int s with
  | Except.error e => Except.error e
  | Except.ok (month, s) =>
  match io.read_int s with
  | Except.error e => Except.error e
  | Except.ok (year, s) =>
  match io.read_int s with
  | Except.error e => Except.error e
  | Except.ok (_isdst, s) =>
    let dt : PyDateTime := ⟨year + 1900, month + 1, day, hour, minute, sec⟩
    if validDateTime dt then Except.ok (dt, s) else Except.error "Invalid creation date"

/-- Source `HeaderParser.parse`.  Returns the header together with the updated
`DumpIO` size configuration (the Python code mutates `self.dio`). -/
def parseHeader (_io0 : DumpIo) (s : ByteStr) :
    Except String (Header × DumpIo × ByteStr) :=
  let (magic, s) := pyRead 5 s
  if magic ≠ MAGIC_HEADER then Except.error "Invalid magic header"
  else
  match readByte s with
  | Except.error e => Except.error e
  | Except.ok (v1, s) =>
  match readByte s with
  | Except.error e => Except.error e
  | Except.ok (v2, s) =>
  match readByte s with
  | Except.error e => Except.error e
  | Except.ok (v3, s) =>
    let version : Version := (v1, v2, v3)
    if versionLt version (1, 12, 0) || versionLt (1, 16, 0) version then
      Except.error "Unsupported version"
    else
    match readByte s with
    | Except.error e => Except.error e
    | Except.ok (int_size, s) =>
    match readByte s with
    | Except.error e => Except.error e
    | Except.ok (offset_size, s) =>
      let io : DumpIo := ⟨int_size, offset_size⟩
      match readByte s with
      | Except.error e => Except.error e
      | Except.ok (format_byte, s) =>
        if format_byte ≠ CUSTOM_FORMAT then Except.error "Unsupported format"
        else
        match parseCompression io version s with
        | Except.error e => Except.error e
        | Except.ok (compression_method, s) =>
        match parseDate io s with
        | Except.error e => Except.error e
        | Except.ok (create_date, s) =>
        match io.read_string s with
        | Except.error e => Except.error e
        | Except.ok (database_name, s) =>
        match io.read_string s with
        | Except.error e => Except.error e
        | Except.ok (server_version, s) =>
        match io.read_string s with
        | Except.error e => Except.error e
        | Except.ok (pgdump_version, s) =>
          Except.ok (⟨magic, version, database_name, server_version, pgdump_version,
            compression_method, create_date, int_size, offset_size⟩, io, s)

/-! ### TOC parser -/

/-- Source `TocParser._parse_section`. -/
def parseSection (section_idx : Int) : SectionType :=
  if section_idx = 1 then SectionType.preData
  else if section_idx = 2 then SectionType.data
  else if section_idx = 3 then SectionType.postData
  else if section_idx = 4 then SectionType.none
  else SectionType.none

/-- The Python idiom `value or None` on a string. -/
def orNone (s : ByteStr) : Option ByteStr := if s = [] then Option.none else some s

def digitsValAux : ByteStr → Nat → Option Nat
  | [], acc => some acc
  | d :: ds, acc =>
    if 48 ≤ d ∧ d ≤ 57 then digitsValAux ds (acc * 10 + (d - 48)) else Option.none

def digitsVal : ByteStr → Option Nat
  | [] => Option.none
  | ds => digitsValAux ds 0

/-- Model of Python `int(str)` on an ASCII decimal literal with an optional
sign (`45` is `-`, `43` is `+`); anything else fails like `ValueError`. -/
def pyIntOfString? (s : ByteStr) : Option Int :=
  match s with
  | 45 :: ds => (digitsVal ds).map (fun n => -(n : Int))
  | 43 :: ds => (digitsVal ds).map (fun n => (n : Int))
  | ds => (digitsVal ds).map (fun n => (n : Int))

/-- Source `TocParser._parse_dependencies`: read strings until the first empty one;
non-numeric entries are logged and skipped. -/
def parseDependencies (io : DumpIo) : Nat → ByteStr → Except String (List Int × ByteStr)
  | 0, _ => Except.error "dependency loop fuel exhausted"
  | fuel + 1, s =>
    match io.read_string s with
    | Except.error e => Except.error e
    | Except.ok (dep_str, s) =>
      if dep_str = [] then Except.ok ([], s)
      else
        match parseDependencies io fuel s with
        | Except.error e => Except.error e
        | Except.ok (deps, s) =>
          match pyIntOfString? dep_str with
          | some n => Except.ok (n :: deps, s)
          | Option.none => Except.ok (deps, s)

/-- The version-conditional `tableam` read: only for versions at least
(1,14,0); otherwise the field stays `None`. -/
def readTableam (io : DumpIo) (version : Version) (s : ByteStr) :
    Except String (Option ByteStr × ByteStr) :=
  if versionLt version (1, 14, 0) then Except.ok (Option.none, s)
  else
    match io.read_string s with
    | Except.error e => Except.error e
    | Except.ok (t, s) => Except.ok (some t, s)

/-- Source `TocParser._parse_entry`: one TOC record, read in the exact field order of
the source; optional string fields go through the `x or None` idiom except
`tableam`, which is stored as read. -/
def parseEntry (io : DumpIo) (version : Version) (s : ByteStr) :
    Except String (TocEntry × ByteStr) :=
  match io.read_int s with
  | Except.error e => Except.error e
  | Except.ok (dump_id, s) =>
  match io.read_int s with
  | Except.error e => Except.error e
  | Except.ok (had_dumper_int, s) =>
  match io.read_string s with
  | Except.error e => Except.error e
  | Except.ok (table_oid, s) =>
  match io.read_string s with
  | Except.error e => Except.error e
  | Except.ok (oid, s) =>
  match io.read_string s with
  | Except.error e => Except.error e
  | Except.ok (tag, s) =>
  match io.read_string s with
  | Except.error e => Except.error e
  | Except.ok (desc, s) =>
  match io.read_int s with
  | Except.error e => Except.error e
  | Except.ok (section_idx, s) =>
  match io.read_string s with
  | Except.error e => Except.error e
  | Except.ok (defn, s) =>
  match io.read_string s with
  | Except.error e => Except.error e
  | Except.ok (drop_stmt, s) =>
  match io.read_string s with
  | Except.error e => Except.error e
  | Except.ok (copy_stmt, s) =>
  match io.read_string s with
  | Except.error e => Except.error e
  | Except.ok (nsp, s) =>
  match io.read_string s with
  | Except.error e => Except.error e
  | Except.ok (tablespace, s) =>
  match readTableam io version s with
  | Except.error e => Except.error e
  | Except.ok (tableam, s) =>
  match io.read_string s with
  | Except.error e => Except.error e
  | Except.ok (owner, s) =>
  match io.read_string s with
  | Except.error e => Except.error e
  | Except.ok (with_oids, s) =>
  match parseDependencies io (s.length + 1) s with
  | Except.error e => Except.error e
  | Except.ok (dependencies, s) =>
  match readByte s with
  | Except.error e => Except.error e
  | Except.ok (data_state, s) =>
  match io.read_offset s with
  | Except.error e => Except.error e
  | Except.ok (offset, s) =>
    Except.ok
      ({ dump_id := dump_id,
         had_dumper := had_dumper_int != 0,
         tag := orNone tag,
         desc := orNone desc,
         section_ := parseSection section_idx,
         defn := orNone defn,
         copy_stmt := orNone copy_stmt,
         drop_stmt := orNone drop_stmt,
         namespace_ := orNone nsp,
         tablespace := orNone tablespace,
         tableam := tableam,
         data_state := data_state,
         owner := orNone owner,
         offset := offset,
         with_oids := orNone with_oids,
         table_oid := orNone table_oid,
         oid := orNone oid,
         dependencies := dependencies }, s)

def parseEntries (io : DumpIo) (version : Version) : Nat → ByteStr →
    Except String (List TocEntry × ByteStr)
  | 0, s => Except.ok ([], s)
  | n + 1, s =>
    match parseEntry io version s with
    | Except.error e => Except.error e
    | Except.ok (entry, s) =>
      match parseEntries io version n s with
      | Except.error e => Except.error e
      | Except.ok (entries, s) => Except.ok (entry :: entries, s)

/-- Source `TocParser.parse`: entry count then that many records (a negative count
gives an empty `range`, hence `Int.toNat`). -/
def tocParse (io : DumpIo) (version : Version) (s : ByteStr) :
    Except String (List TocEntry × ByteStr) :=
  match io.read_int s with
  | Except.error e => Except.error e
  | Except.ok (num_entries, s) => parseEntries io version num_entries.toNat s

/-! ### Driver: header+TOC buffering loop (`DumpProcessor._parse_header_and_toc`) -/

/-- One parse attempt on the buffered prefix: header then TOC, as inside the
`try` block of `_parse_header_and_toc`. -/
def parseAttempt (io0 : DumpIo) (buffer : ByteStr) :
    Except String (Dump × DumpIo × ByteStr) :=
  match parseHeader io0 buffer with
  | Except.error e => Except.error e
  | Except.ok (header, io, s) =>
    match tocParse io header.version s with
    | Except.error e => Except.error e
    | Except.ok (toc_entries, s) => Except.ok (⟨header, toc_entries⟩, io, s)

def exceptIsOk : Except String α → Bool
  | Except.ok _ => true
  | Except.error _ => false

/-- Result of the driver prefix phase: the parsed dump, the updated codec
sizes, the bytes written downstream (`buffer[0:toc_end_pos]`), the leftover
buffered bytes handed to the `StreamCombiner`, and the unread upstream. -/
structure ParsedPrefix where
  dump : Dump
  io : DumpIo
  written : ByteStr
  remaining : ByteStr
  upstream : List ByteStr
deriving Repr

/-- Source `DumpProcessor._parse_header_and_toc`: accumulate upstream chunks in a
buffer; after each chunk try a full header+TOC parse from offset 0; any
parse error (`PgDumpError` or `struct.error`) triggers another read; an
empty read raises the header/TOC EOF error. -/
def parseHeaderAndToc (io0 : DumpIo) : List ByteStr → ByteStr → Except String ParsedPrefix
  | [], _ => Except.error "Unexpected EOF while reading header/TOC"
  | chunk :: rest, buffer =>
    if chunk = [] then Except.error "Unexpected EOF while reading header/TOC"
    else
      let buffer' := buffer ++ chunk
      match parseAttempt io0 buffer' with
      | Except.ok (dump, io, s) =>
        Except.ok ⟨dump, io, buffer'.take (buffer'.length - s.length), s, rest⟩
      | Except.error _ => parseHeaderAndToc io0 rest buffer'

/-! ### Data-block engine state -/

/-- Engine state: the input stream (buffered leftover plus upstream,
collapsed), the bytes written downstream so far, and the ghost trace of every
argument handed to `DataProcessor.process` (`Option.none` records a call with
Python `None`). -/
structure ProcState where
  input : ByteStr
  output : ByteStr
  calls : List (Option ByteStr)
deriving DecidableEq, Repr

/-- Engine results; unlike `Except`, an error keeps the state, because a
Python exception does not undo writes already made to the output stream. -/
inductive PRes (α : Type) where
  | ok (a : α) (s : ProcState)
  | err (e : String) (s : ProcState)
deriving DecidableEq, Repr

/-- The state carried by a result, whether or not it is an error. -/
def PRes.state : PRes α → ProcState
  | .ok _ s => s
  | .err _ s => s

/-- Source `dio.read_int(input_stream)` inside the engine. -/
def readIntE (io : DumpIo) (st : ProcState) : PRes Int :=
  match io.read_int st.input with
  | Except.error e => PRes.err e st
  | Except.ok (v, s) => PRes.ok v { st with input := s }

/-- Source `input_stream.read(n)` inside the engine. -/
def readE (n : Int) (st : ProcState) : ByteStr × ProcState :=
  ((pyRead n st.input).1, { st with input := (pyRead n st.input).2 })

/-- Source `output_stream.write(bs)` (`flush` is a no-op in the model). -/
def writeE (bs : ByteStr) (st : ProcState) : ProcState :=
  { st with output := st.output ++ bs }

/-- A call to `self.processor.process(arg)` for the abstract transformer
`pf`.  The argument is recorded in the ghost trace; a `None` argument crashes
(`ObfuscatorProcessor.process` hits `None.decode`, an uncaught
`AttributeError`). -/
def callProc (pf : ByteStr → ByteStr) (arg : Option ByteStr) (st : ProcState) :
    PRes ByteStr :=
  match arg with
  | Option.none => PRes.err "process called with None" { st with calls := st.calls ++ [Option.none] }
  | some b => PRes.ok (pf b) { st with calls := st.calls ++ [some b] }

/-- Abstract model of `zlib.decompressobj()`: `decompress` consumes fed bytes
and returns the new state, the produced plaintext and the `unconsumed_tail`;
`flush` drains the residual state. -/
structure Decompressor (S : Type) where
  init : S
  decompress : S → ByteStr → Except String (S × ByteStr × ByteStr)
  flush : S → Except String ByteStr

/-- Source `DataBlockProcessor._write_data_block`:
`DATA | write_int(dump_id) | write_int(len(data)) | data`, then flush. -/
def writeDataBlock (io : DumpIo) (dump_id : Int) (data : ByteStr) (st : ProcState) :
    PRes Unit :=
  PRes.ok () (writeE data (writeE (io.write_int (data.length : Int))
    (writeE (io.write_int dump_id) (writeE [1] st))))

/-- The chunk loop of `DataBlockProcessor._process_compressed_block`:
read a chunk size; `0` terminates before its (absent) bytes; otherwise read
exactly that many bytes, feed `remaining_chunk + chunk` to the decompressor,
carry the `unconsumed_tail`, and stop after a chunk smaller than
`ZLIB_CHUNK_SIZE`.  Fuel is the input length plus one at the call site, which
is always sufficient because every continuing iteration consumes bytes. -/
def chunkLoop (io : DumpIo) {S : Type} (D : Decompressor S) :
    Nat → S → ByteStr → ByteStr → ProcState → PRes (S × ByteStr)
  | 0, _, _, _, st => PRes.err "chunk loop fuel exhausted" st
  | fuel + 1, dstate, remaining_chunk, acc, st =>
    match readIntE io st with
    | PRes.err e st' => PRes.err e st'
    | PRes.ok chunk_size st =>
      if chunk_size = 0 then PRes.ok (dstate, acc) st
      else
        let chunk_data := (readE chunk_size st).1
        let st1 := (readE chunk_size st).2
        if (chunk_data.length : Int) ≠ chunk_size then PRes.err "short chunk read" st1
        else
          match D.decompress dstate (remaining_chunk ++ chunk_data) with
          | Except.error _ => PRes.err "Decompression error" st1
          | Except.ok (dstate', decompressed_chunk, tail) =>
            if chunk_size < ZLIB_CHUNK_SIZE then
              PRes.ok (dstate', acc ++ decompressed_chunk) st1
            else chunkLoop io D fuel dstate' tail (acc ++ decompressed_chunk) st1

/-- Source `DataBlockProcessor._process_compressed_block`: run the chunk loop with a
fresh decompressor, flush it, hand the full plaintext to the transformer,
recompress with `compress` (`zlib.compress`) and emit via
`_write_data_block`. -/
def processCompressedBlock (io : DumpIo) {S : Type} (D : Decompressor S)
    (compress pf : ByteStr → ByteStr) (dump_id : Int) (st : ProcState) : PRes Unit :=
  match chunkLoop io D (st.input.length + 1) D.init [] [] st with
  | PRes.err e st' => PRes.err e st'
  | PRes.ok (dstate, decompressed_data) st =>
    match D.flush dstate with
    | Except.error _ => PRes.err "Final decompression error" st
    | Except.ok final_data =>
      match callProc pf (some (decompressed_data ++ final_data)) st with
      | PRes.err e st' => PRes.err e st'
      | PRes.ok processed_data st =>
        writeDataBlock io dump_id (compress processed_data) st

/-- Source `DataBlockProcessor._process_uncompressed_block`: read a size-prefixed
payload, transform it, and emit the processed bytes via `_write_data_block`. -/
def processUncompressedBlock (io : DumpIo) (pf : ByteStr → ByteStr)
    (dump_id : Int) (st : ProcState) : PRes Unit :=
  match readIntE io st with
  | PRes.err e st' => PRes.err e st'
  | PRes.ok size st =>
    let data := (readE size st).1
    let st1 := (readE size st).2
    if (data.length : Int) ≠ size then PRes.err "short data read" st1
    else
      match callProc pf (some data) st1 with
      | PRes.err e st' => PRes.err e st'
      | PRes.ok processed_data st => writeDataBlock io dump_id processed_data st

/-- Source `DataBlockProcessor.process_block`: dispatch on the compression method. -/
def processBlock (io : DumpIo) {S : Type} (D : Decompressor S)
    (compress pf : ByteStr → ByteStr) (dump_id : Int)
    (compression : CompressionMethod) (st : ProcState) : PRes Unit :=
  if compression = CompressionMethod.zlib then
    processCompressedBlock io D compress pf dump_id st
  else processUncompressedBlock io pf dump_id st

/-- The copying loop of `DumpProcessor._pass_through_block`: read up to
`DEFAULT_BUFFER_SIZE` bytes at a time and copy them; an empty read breaks the
loop silently. -/
def passLoop : Nat → Int → ProcState → PRes Unit
  | 0, _, st => PRes.err "pass-through fuel exhausted" st
  | fuel + 1, remaining, st =>
    if remaining > 0 then
      let chunk := (readE (min remaining DEFAULT_BUFFER_SIZE) st).1
      let st' := (readE (min remaining DEFAULT_BUFFER_SIZE) st).2
      if chunk = [] then PRes.ok () st'
      else passLoop fuel (remaining - (chunk.length : Int)) (writeE chunk st')
    else PRes.ok () st

/-- Source `DumpProcessor._pass_through_block`: emit tag and dump id, read the
payload length, emit it, then copy up to that many payload bytes. -/
def passThroughBlock (io : DumpIo) (block_type : ByteStr) (dump_id : Int)
    (st : ProcState) : PRes Unit :=
  let st := writeE block_type st
  let st := writeE (io.write_int dump_id) st
  match readIntE io st with
  | PRes.err e st' => PRes.err e st'
  | PRes.ok size st =>
    let st := writeE (io.write_int size) st
    passLoop (size.toNat + 1) size st

/-! ### Driver: block loop (`DumpProcessor._process_data_blocks`) -/

/-- The set `{entry.dump_id for entry in dump.get_table_data_entries()}`. -/
def tableDataIds (d : Dump) : List Int :=
  (d.get_table_data_entries).map (fun e => e.dump_id)

/-- The dict `{entry.dump_id: entry.copy_stmt for entry in table data}`;
later entries overwrite earlier ones, so lookup is on the reversed list. -/
def copyStmtLookup (d : Dump) (dump_id : Int) : Option ByteStr :=
  match (d.get_table_data_entries).reverse.find? (fun e => e.dump_id == dump_id) with
  | some e => e.copy_stmt
  | Option.none => Option.none

/-- The set `{entry.defn for entry in dump.get_comment_entries()}` (Python
set semantics modelled as order-preserving deduplication). -/
def commentDefns (d : Dump) : List (Option ByteStr) :=
  ((d.get_comment_entries).map (fun e => e.defn)).dedup

/-- Source `for comment in dump_comments: self.data_processor.process(comment)`. -/
def processComments (pf : ByteStr → ByteStr) :
    List (Option ByteStr) → ProcState → PRes Unit
  | [], st => PRes.ok () st
  | c :: cs, st =>
    match callProc pf c st with
    | PRes.err e st' => PRes.err e st'
    | PRes.ok _ st' => processComments pf cs st'

/-- The `while True` block loop of `_process_data_blocks`: read one tag byte
(EOF terminates); `DATA` blocks with a TABLE-DATA dump id get the copy
statement processed and then `process_block`; other `DATA` blocks are passed
through; any other tag byte is written out, and `END` stops the loop. -/
def blockLoop (io : DumpIo) {S : Type} (D : Decompressor S)
    (compress pf : ByteStr → ByteStr) (d : Dump) : Nat → ProcState → PRes Unit
  | 0, st => PRes.err "block loop fuel exhausted" st
  | fuel + 1, st =>
    let block_type := (readE 1 st).1
    let st := (readE 1 st).2
    if block_type = [] then PRes.ok () st
    else if block_type = [1] then
      match readIntE io st with
      | PRes.err e st' => PRes.err e st'
      | PRes.ok dump_id st =>
        if dump_id ∈ tableDataIds d then
          match callProc pf (copyStmtLookup d dump_id) st with
          | PRes.err e st' => PRes.err e st'
          | PRes.ok _ st =>
            match processBlock io D compress pf dump_id d.header.compression_method st with
            | PRes.err e st' => PRes.err e st'
            | PRes.ok _ st => blockLoop io D compress pf d fuel st
        else
          match passThroughBlock io block_type dump_id st with
          | PRes.err e st' => PRes.err e st'
          | PRes.ok _ st => blockLoop io D compress pf d fuel st
    else
      let st := writeE block_type st
      if block_type = [4] then PRes.ok () st
      else blockLoop io D compress pf d fuel st

/-- Source `DumpProcessor._process_data_blocks`: process every comment definition,
then run the block loop. -/
def processDataBlocks (io : DumpIo) {S : Type} (D : Decompressor S)
    (compress pf : ByteStr → ByteStr) (d : Dump) (st : ProcState) : PRes Unit :=
  match processComments pf (commentDefns d) st with
  | PRes.err e st' => PRes.err e st'
  | PRes.ok _ st => blockLoop io D compress pf d (st.input.length + 1) st

/-- The trivial decompressor used to instantiate witnesses: plaintext equals
the fed bytes, no carry-over, empty flush. -/
def idDecomp : Decompressor Unit :=
  ⟨(), fun _ b => Except.ok ((), b, []), fun _ => Except.ok []⟩

/-! ### Engine lemmas and the compressed-block claims (C6, C7, C9) -/

theorem chunkLoop_output (io : DumpIo) {S : Type} (D : Decompressor S) :
    ∀ (fuel : Nat) (dstate : S) (rem acc : ByteStr) (st : ProcState),
      (chunkLoop io D fuel dstate rem acc st).state.output = st.output := by
  intro fuel
  induction fuel with
  | zero => intro dstate rem acc st; rfl
  | succ fuel ih =>
    intro dstate rem acc st
    simp only [chunkLoop, readIntE, readE]
    rcases hri : io.read_int st.input with e | ⟨v, s⟩ <;> simp only []
    · rfl
    · split
      · rfl
      · split
        · rfl
        · split
          · rfl
          · split
            · rfl
            · exact ih _ _ _ _

theorem chunkLoop_calls (io : DumpIo) {S : Type} (D : Decompressor S) :
    ∀ (fuel : Nat) (dstate : S) (rem acc : ByteStr) (st : ProcState),
      (chunkLoop io D fuel dstate rem acc st).state.calls = st.calls := by
  intro fuel
  induction fuel with
  | zero => intro dstate rem acc st; rfl
  | succ fuel ih =>
    intro dstate rem acc st
    simp only [chunkLoop, readIntE, readE]
    rcases hri : io.read_int st.input with e | ⟨v, s⟩ <;> simp only []
    · rfl
    · split
      · rfl
      · split
        · rfl
        · split
          · rfl
          · split
            · rfl
            · exact ih _ _ _ _

/-- C7: if `_process_compressed_block` raises at any point (short chunk read,
chunk-size read hitting EOF, zlib decompression error, flush error), not a
single byte of the block has been written: the output downstream is exactly
what it was before the block started.  Writing happens only in
`_write_data_block`, after recompression succeeded. -/
theorem c7_thm (io : DumpIo) {S : Type} (D : Decompressor S)
    (compress pf : ByteStr → ByteStr) (dump_id : Int) (st : ProcState)
    (e : String) (st2 : ProcState)
    (h : processCompressedBlock io D compress pf dump_id st = PRes.err e st2) :
    st2.output = st.output := by
  unfold processCompressedBlock at h
  split at h
  case _ e' st1 hcl =>
    simp only [PRes.err.injEq] at h
    have hpre := chunkLoop_output io D (st.input.length + 1) D.init [] [] st
    rw [hcl] at hpre
    rw [← h.2]
    exact hpre
  case _ dstate data st1 hcl =>
    split at h
    case _ e'' hfl =>
      simp only [PRes.err.injEq] at h
      have hpre := chunkLoop_output io D (st.input.length + 1) D.init [] [] st
      rw [hcl] at hpre
      rw [← h.2]
      exact hpre
    case _ fin hfl =>
      simp [callProc, writeDataBlock] at h

/-- Witness for C7: EOF at the first chunk-size read; the output stays `[7]`. -/
theorem c7_witness :
    (PRes.state (processCompressedBlock ⟨4, 8⟩ idDecomp (fun b => b) (fun b => b) 1
      ⟨[], [7], []⟩)).output = [7] := by
  have h : processCompressedBlock ⟨4, 8⟩ idDecomp (fun b => b) (fun b => b) 1
      ⟨[], [7], []⟩ =
      PRes.err "Unexpected EOF while reading byte" ⟨[], [7], []⟩ := by rfl
  have := c7_thm ⟨4, 8⟩ idDecomp (fun b => b) (fun b => b) 1 ⟨[], [7], []⟩
    "Unexpected EOF while reading byte" ⟨[], [7], []⟩ h
  rw [h]
  exact this

/-- C6: the ZLIB rewrite chunk loop stops at a declared chunk size of `0`
without consuming payload bytes; a chunk whose declared size is positive but
strictly below the 4096 chunk budget is consumed, fed to the decompressor and
then treated as terminal; and `_process_compressed_block` calls the
decompressor flush on the loop result, appending its output to the plaintext
handed to the transformer. -/
theorem c6_thm (io : DumpIo) {S : Type} (D : Decompressor S)
    (compress pf : ByteStr → ByteStr) (dump_id : Int) (dstate : S)
    (rem acc : ByteStr) (st : ProcState) (fuel : Nat) (c : Int) (s1 : ByteStr)
    (h : io.read_int st.input = Except.ok (c, s1)) :
    (c = 0 →
      chunkLoop io D (fuel + 1) dstate rem acc st =
        PRes.ok (dstate, acc) { st with input := s1 }) ∧
    (∀ (bytes rest2 : ByteStr) (dstate' : S) (outp tail : ByteStr),
      0 < c → c < 4096 → s1 = bytes ++ rest2 → (bytes.length : Int) = c →
      D.decompress dstate (rem ++ bytes) = Except.ok (dstate', outp, tail) →
      chunkLoop io D (fuel + 1) dstate rem acc st =
        PRes.ok (dstate', acc ++ outp) { st with input := rest2 }) ∧
    (∀ (dfin : S) (data : ByteStr) (st2 : ProcState) (fin : ByteStr),
      chunkLoop io D (st.input.length + 1) D.init [] [] st = PRes.ok (dfin, data) st2 →
      D.flush dfin = Except.ok fin →
      processCompressedBlock io D compress pf dump_id st =
        writeDataBlock io dump_id (compress (pf (data ++ fin)))
          { st2 with calls := st2.calls ++ [some (data ++ fin)] }) := by
  refine ⟨?_, ?_, ?_⟩
  · intro hc
    subst hc
    simp [chunkLoop, readIntE, h]
  · intro bytes rest2 dstate' outp tail hpos hsmall hs1 hblen hdec
    subst hs1
    have hc0 : ¬ c = 0 := by omega
    have htake : (pyRead c (bytes ++ rest2)).1 = bytes := by
      unfold pyRead
      have : ¬ c < 0 := by omega
      simp only [this, if_false]
      have hnat : c.toNat = bytes.length := by omega
      rw [hnat, List.take_left]
    have hdrop : (pyRead c (bytes ++ rest2)).2 = rest2 := by
      unfold pyRead
      have : ¬ c < 0 := by omega
      simp only [this, if_false]
      have hnat : c.toNat = bytes.length := by omega
      rw [hnat, List.drop_left]
    simp only [chunkLoop, readIntE, h, hc0, if_false, readE, htake, hdrop]
    rw [if_neg (by omega)]
    simp only [hdec]
    rw [if_pos (by unfold ZLIB_CHUNK_SIZE; omega)]
  · intro dfin data st2 fin hloop hflush
    unfold processCompressedBlock
    rw [hloop]
    simp [hflush, callProc]

/-- Witness for C6: a zero-size chunk terminates the loop at once. -/
theorem c6_witness :
    chunkLoop ⟨4, 8⟩ idDecomp 1 () [] [] ⟨[0, 0, 0, 0, 0], [], []⟩ =
      PRes.ok ((), []) ⟨[], [], []⟩ :=
  (c6_thm ⟨4, 8⟩ idDecomp (fun b => b) (fun b => b) 1 () [] []
    ⟨[0, 0, 0, 0, 0], [], []⟩ 0 0 [] (by rfl)).1 rfl

/-- C9: a successfully rewritten block is emitted downstream exactly as
`DATA(0x01) | write_int(dump_id) | write_int(len(compressed)) | compressed`,
where `compressed` is one application of the compressor to the transformed
plaintext (no chunk-size framing, no terminating zero chunk), and the
transformer was handed that plaintext exactly once. -/
theorem c9_thm (io : DumpIo) {S : Type} (D : Decompressor S)
    (compress pf : ByteStr → ByteStr) (dump_id : Int) (st st2 : ProcState)
    (h : processCompressedBlock io D compress pf dump_id st = PRes.ok () st2) :
    ∃ plaintext : ByteStr,
      st2.output = st.output ++ [1] ++ io.write_int dump_id ++
        io.write_int ((compress (pf plaintext)).length : Int) ++ compress (pf plaintext) ∧
      st2.calls = st.calls ++ [some plaintext] := by
  unfold processCompressedBlock at h
  split at h
  case _ e' st1 hcl => cases h
  case _ dstate data st1 hcl =>
    split at h
    case _ e'' hfl => cases h
    case _ fin hfl =>
      simp only [callProc, writeDataBlock, writeE, PRes.ok.injEq] at h
      have hout := chunkLoop_output io D (st.input.length + 1) D.init [] [] st
      have hcalls := chunkLoop_calls io D (st.input.length + 1) D.init [] [] st
      rw [hcl] at hout hcalls
      simp only [PRes.state] at hout hcalls
      refine ⟨data ++ fin, ?_, ?_⟩
      · rw [← h.2]
        simp only []
        rw [hout]
      · rw [← h.2]
        simp only []
        rw [hcalls]

/-- Witness for C9: the empty single-zero-chunk payload is rewritten into a
block with an empty compressed payload. -/
theorem c9_witness :
    ∃ plaintext : ByteStr,
      (⟨[], [1, 0, 1, 0, 0, 0, 0, 0, 0, 0, 0], [some []]⟩ : ProcState).output =
        ([] : ByteStr) ++ [1] ++ (DumpIo.mk 4 8).write_int 1 ++
          (DumpIo.mk 4 8).write_int (((fun (b : ByteStr) => b) ((fun (b : ByteStr) => b) plaintext)).length : Int) ++
          (fun (b : ByteStr) => b) ((fun (b : ByteStr) => b) plaintext) ∧
      (⟨[], [1, 0, 1, 0, 0, 0, 0, 0, 0, 0, 0], [some []]⟩ : ProcState).calls =
        ([] : List (Option ByteStr)) ++ [some plaintext] :=
  c9_thm ⟨4, 8⟩ idDecomp (fun b => b) (fun b => b) 1 ⟨[0, 0, 0, 0, 0], [], []⟩
    ⟨[], [1, 0, 1, 0, 0, 0, 0, 0, 0, 0, 0], [some []]⟩ (by rfl)

/-! ### Uncompressed path and the block-dispatch claims (C1, C4, C2, C5-counterexample) -/

theorem processUncompressedBlock_exact (io : DumpIo) (pf : ByteStr → ByteStr)
    (dump_id : Int) (p rest o : ByteStr) (cs : List (Option ByteStr))
    (h : p.length < 256 ^ io.int_size) :
    processUncompressedBlock io pf dump_id
        ⟨io.write_int (p.length : Int) ++ (p ++ rest), o, cs⟩ =
      PRes.ok () ⟨rest, o ++ [1] ++ io.write_int dump_id ++
        io.write_int ((pf p).length : Int) ++ pf p, cs ++ [some p]⟩ := by
  have hri : io.read_int (io.write_int (p.length : Int) ++ (p ++ rest)) =
      Except.ok ((p.length : Int), p ++ rest) :=
    read_write_int io (p.length : Int) (p ++ rest) (by simpa using h)
  have htake : (pyRead (p.length : Int) (p ++ rest)).1 = p := by
    unfold pyRead
    rw [if_neg (by omega)]
    simp [List.take_left]
  have hdrop : (pyRead (p.length : Int) (p ++ rest)).2 = rest := by
    unfold pyRead
    rw [if_neg (by omega)]
    simp [List.drop_left]
  unfold processUncompressedBlock readIntE
  simp only [hri, readE, htake, hdrop]
  rw [if_neg (by simp)]
  simp [callProc, writeDataBlock, writeE]

/-- C1 counterexample: with compression method `None`, a TABLE-DATA `DATA`
block with payload `[7]` is NOT passed through verbatim: the transformer
(here constantly `[9, 9]`) is applied to the payload (the ghost call trace is
`[some [7]]`) and the emitted block carries the transformed payload `[9, 9]`
with its new length, not the original bytes. -/
theorem c1_counterexample :
    processBlock ⟨4, 8⟩ idDecomp (fun b => b) (fun _ => [9, 9]) 1 CompressionMethod.none
        ⟨[0, 1, 0, 0, 0, 7], [], []⟩ =
      PRes.ok () ⟨[], [1, 0, 1, 0, 0, 0, 0, 2, 0, 0, 0, 9, 9], [some [7]]⟩ ∧
    ([1, 0, 1, 0, 0, 0, 0, 2, 0, 0, 0, 9, 9] : ByteStr) ≠
      [1, 0, 1, 0, 0, 0, 0, 1, 0, 0, 0, 7] :=
  ⟨by rfl, by decide⟩

/-- C1 (amended): a TABLE-DATA `DATA` block is rewritten through
decompress/transform/recompress if and only if the header compression method
is `Zlib`; for every other method the engine reads the size-prefixed payload,
applies the transformer to it, and emits
`DATA | write_int(dump_id) | write_int(len(processed)) | processed` — a
re-emission of the transformed payload, not a verbatim pass-through. -/
theorem c1_amended_thm (io : DumpIo) {S : Type} (D : Decompressor S)
    (compress pf : ByteStr → ByteStr) (dump_id : Int)
    (compression : CompressionMethod) (p rest o : ByteStr)
    (cs : List (Option ByteStr)) (hlen : p.length < 256 ^ io.int_size) :
    (compression ≠ CompressionMethod.zlib →
      processBlock io D compress pf dump_id compression
          ⟨io.write_int (p.length : Int) ++ (p ++ rest), o, cs⟩ =
        PRes.ok () ⟨rest, o ++ [1] ++ io.write_int dump_id ++
          io.write_int ((pf p).length : Int) ++ pf p, cs ++ [some p]⟩) ∧
    (compression = CompressionMethod.zlib →
      ∀ st, processBlock io D compress pf dump_id compression st =
        processCompressedBlock io D compress pf dump_id st) := by
  constructor
  · intro hne
    unfold processBlock
    rw [if_neg hne]
    exact processUncompressedBlock_exact io pf dump_id p rest o cs hlen
  · intro heq st
    unfold processBlock
    rw [if_pos heq]

/-- Witness for the amended C1 at compression `Gzip`, payload `[7]`,
transformer constantly `[9, 9]`. -/
theorem c1_amended_witness :
    processBlock ⟨4, 8⟩ idDecomp (fun b => b) (fun _ => [9, 9]) 2 CompressionMethod.gzip
        ⟨[0, 1, 0, 0, 0, 7], [], []⟩ =
      PRes.ok () ⟨[], [1, 0, 2, 0, 0, 0, 0, 2, 0, 0, 0, 9, 9], [some [7]]⟩ :=
  (c1_amended_thm ⟨4, 8⟩ idDecomp (fun b => b) (fun _ => [9, 9]) 2
    CompressionMethod.gzip [7] [] [] [] (by decide)).1 (by decide)

/-- C4 (code bug): `_pass_through_block` with a declared payload length of 4
but only 2 payload bytes available before EOF returns normally and emits the
truncated block `tag | write_int(7) | write_int(4) | [5, 6]` — no `Corrupt`
error is raised for the short read, although `_process_uncompressed_block`
raises on the same condition and the dump emitted downstream is corrupt (its
declared length exceeds its payload). -/
theorem c4_short_read_thm :
    passThroughBlock ⟨4, 8⟩ [1] 7 ⟨[0, 4, 0, 0, 0, 5, 6], [], []⟩ =
      PRes.ok () ⟨[], [1, 0, 7, 0, 0, 0, 0, 4, 0, 0, 0, 5, 6], []⟩ := by rfl

/-- A header with compression method `None` (used by concrete dumps below). -/
def hdrNone : Header :=
  ⟨MAGIC_HEADER, (1, 14, 0), [], [], [], CompressionMethod.none, ⟨2024, 1, 1, 0, 0, 0⟩, 4, 8⟩

/-- A dump whose TOC is empty. -/
def dumpNoEntries : Dump := ⟨hdrNone, []⟩

/-- C2 (code bug): on a BLOBS block (tag `0x02`, dump id 3, one payload byte
`0x01`, followed by `END`), the engine writes only the tag byte and keeps
reading the block body as block tags: the payload byte `0x01` is misread as a
`DATA` tag, the following bytes as a dump id, and processing dies with
`UnexpectedEof`, emitting garbage downstream instead of the structural
pass-through the claim describes. -/
theorem c2_blobs_thm :
    processDataBlocks ⟨4, 8⟩ idDecomp (fun b => b) (fun b => b) dumpNoEntries
        ⟨[2, 0, 3, 0, 0, 0, 0, 1, 0, 0, 0, 1, 4], [], []⟩ =
      PRes.err "Unexpected EOF while reading byte"
        ⟨[], [2, 0, 3, 0, 0, 0, 0, 1, 0, 0, 0, 1, 4], []⟩ := by rfl

/-- A COMMENT TOC entry whose definition is the single byte `[88]`. -/
def commentEntry : TocEntry :=
  { dump_id := 7, section_ := SectionType.none, had_dumper := false,
    desc := some COMMENT, defn := some [88] }

/-- A dump with one COMMENT entry and no TABLE DATA entries. -/
def dumpWithComment : Dump := ⟨hdrNone, [commentEntry]⟩

/-- C5 counterexample: on a dump with one COMMENT entry and no TABLE DATA
entry at all, the block stream being just `END`, the transformer is invoked
once — on the COMMENT definition `[88]` — although the claim allows no
invocation whatsoever here (there is no TABLE DATA block). -/
theorem c5_counterexample :
    processDataBlocks ⟨4, 8⟩ idDecomp (fun b => b) (fun b => b) dumpWithComment
        ⟨[4], [], []⟩ =
      PRes.ok () ⟨[], [4], [some [88]]⟩ ∧
    ([some [88]] : List (Option ByteStr)) ≠ [] :=
  ⟨by rfl, by decide⟩

/-! ### Pass-through and block-loop lemmas for the amended C5 -/

theorem passLoop_exact : ∀ (fuel : Nat) (p rest : ByteStr) (st : ProcState),
    st.input = p ++ rest → p.length + 1 ≤ fuel →
    passLoop fuel (p.length : Int) st = PRes.ok () ⟨rest, st.output ++ p, st.calls⟩ := by
  intro fuel
  induction fuel with
  | zero => intro p rest st _ hf; omega
  | succ fuel ih =>
    intro p rest st hin hf
    rcases st with ⟨si, so, sc⟩
    simp only at hin
    subst hin
    cases p with
    | nil => simp [passLoop]
    | cons b p' =>
      have hpos : ((((b :: p' : ByteStr)).length : Int)) > 0 := by simp
      have hn0 : ¬ (min (((b :: p' : ByteStr)).length : Int) DEFAULT_BUFFER_SIZE) < 0 := by
        unfold DEFAULT_BUFFER_SIZE
        simp only [List.length_cons]
        omega
      have hmnat : (min (((b :: p' : ByteStr)).length : Int) DEFAULT_BUFFER_SIZE).toNat =
          min (p'.length + 1) 8192 := by
        unfold DEFAULT_BUFFER_SIZE
        simp only [List.length_cons]
        omega
      have hmle : min (p'.length + 1) 8192 ≤ ((b :: p' : ByteStr)).length := by
        simp only [List.length_cons]
        omega
      have hm1 : 1 ≤ min (p'.length + 1) 8192 := by omega
      have htake : (pyRead (min (((b :: p' : ByteStr)).length : Int) DEFAULT_BUFFER_SIZE)
          ((b :: p') ++ rest)).1 = (b :: p').take (min (p'.length + 1) 8192) := by
        unfold pyRead
        rw [if_neg hn0, hmnat]
        exact List.take_append_of_le_length hmle
      have hdrop : (pyRead (min (((b :: p' : ByteStr)).length : Int) DEFAULT_BUFFER_SIZE)
          ((b :: p') ++ rest)).2 = (b :: p').drop (min (p'.length + 1) 8192) ++ rest := by
        unfold pyRead
        rw [if_neg hn0, hmnat]
        exact List.drop_append_of_le_length hmle
      have hchunkne : (b :: p').take (min (p'.length + 1) 8192) ≠ [] := by
        cases hmin : min (p'.length + 1) 8192 with
        | zero => omega
        | succ k => simp
      simp only [passLoop, readE, if_pos hpos, htake, hdrop, if_neg hchunkne, writeE]
      have hlen2 : (((b :: p' : ByteStr)).length : Int) -
          (((b :: p').take (min (p'.length + 1) 8192)).length : Int) =
          (((b :: p').drop (min (p'.length + 1) 8192)).length : Int) := by
        rw [List.length_take, List.length_drop]
        simp only [List.length_cons]
        omega
      rw [hlen2]
      have hrec := ih ((b :: p').drop (min (p'.length + 1) 8192)) rest
        ⟨(b :: p').drop (min (p'.length + 1) 8192) ++ rest,
          so ++ (b :: p').take (min (p'.length + 1) 8192), sc⟩ rfl
        (by
          have hf' := hf
          simp only [List.length_cons] at hf'
          rw [List.length_drop]
          simp only [List.length_cons]
          omega)
      rw [hrec]
      rw [List.append_assoc, List.take_append_drop]

theorem passThroughBlock_exact (io : DumpIo) (bt : ByteStr) (dump_id : Int)
    (p rest o : ByteStr) (cs : List (Option ByteStr))
    (h : p.length < 256 ^ io.int_size) :
    passThroughBlock io bt dump_id ⟨io.write_int (p.length : Int) ++ (p ++ rest), o, cs⟩ =
      PRes.ok () ⟨rest, o ++ bt ++ io.write_int dump_id ++ io.write_int (p.length : Int) ++ p,
        cs⟩ := by
  have hri : io.read_int (io.write_int (p.length : Int) ++ (p ++ rest)) =
      Except.ok ((p.length : Int), p ++ rest) :=
    read_write_int io (p.length : Int) (p ++ rest) (by simpa using h)
  unfold passThroughBlock
  simp only [writeE, readIntE, hri]
  have htn : (((p.length : Nat) : Int)).toNat = p.length := by omega
  rw [htn]
  exact passLoop_exact (p.length + 1) p rest
    ⟨p ++ rest, o ++ bt ++ io.write_int dump_id ++ io.write_int (p.length : Int), cs⟩
    rfl (le_refl _)

theorem copyStmtLookup_isSome (d : Dump) (i : Int) (hi : i ∈ tableDataIds d)
    (hcs : ∀ e ∈ d.get_table_data_entries, e.copy_stmt.isSome = true) :
    (copyStmtLookup d i).isSome = true := by
  unfold copyStmtLookup
  rcases hfind : (d.get_table_data_entries).reverse.find? (fun e => e.dump_id == i) with _ | e
  · exfalso
    unfold tableDataIds at hi
    rcases List.mem_map.mp hi with ⟨e, he, hei⟩
    have hsome : ((d.get_table_data_entries).reverse.find?
        (fun e => e.dump_id == i)).isSome = true := by
      rw [List.find?_isSome]
      exact ⟨e, List.mem_reverse.mpr he, by simp [hei]⟩
    rw [hfind] at hsome
    simp at hsome
  · simp only [hfind]
    have he := List.mem_of_find?_eq_some hfind
    exact hcs e (List.mem_reverse.mp he)

theorem processComments_spec (pf : ByteStr → ByteStr) :
    ∀ (l : List (Option ByteStr)) (st : ProcState),
      (∀ c ∈ l, c.isSome = true) →
      processComments pf l st = PRes.ok () ⟨st.input, st.output, st.calls ++ l⟩ := by
  intro l
  induction l with
  | nil => intro st _; simp [processComments]
  | cons c cl ih =>
    intro st hall
    obtain ⟨b, rfl⟩ := Option.isSome_iff_exists.mp (hall c (List.mem_cons_self c cl))
    simp only [processComments, callProc]
    rw [ih ⟨st.input, st.output, st.calls ++ [some b]⟩
      (fun x hx => hall x (List.mem_cons_of_mem _ hx))]
    simp

/-- On-wire form of one size-prefixed `DATA` block:
`0x01 | write_int(dump_id) | write_int(len(payload)) | payload`. -/
def serializeBlock (io : DumpIo) (b : Int × ByteStr) : ByteStr :=
  [1] ++ io.write_int b.1 ++ io.write_int (b.2.length : Int) ++ b.2

def serializeBlocks (io : DumpIo) : List (Int × ByteStr) → ByteStr
  | [] => []
  | b :: bs => serializeBlock io b ++ serializeBlocks io bs

/-- The transformer calls the block loop performs for a list of `DATA`
blocks: for a block whose dump id is a TABLE-DATA id, the looked-up copy
statement and then the payload; nothing for any other block. -/
def expectedCalls (d : Dump) : List (Int × ByteStr) → List (Option ByteStr)
  | [] => []
  | b :: bs =>
    (if b.1 ∈ tableDataIds d then [copyStmtLookup d b.1, some b.2] else []) ++
      expectedCalls d bs

theorem serializeBlocks_length_ge (io : DumpIo) :
    ∀ bs : List (Int × ByteStr), bs.length ≤ (serializeBlocks io bs).length := by
  intro bs
  induction bs with
  | nil => simp [serializeBlocks]
  | cons b bs ih =>
    simp only [serializeBlocks, serializeBlock, List.length_cons, List.length_append]
    simp only [List.length_cons, List.length_nil]
    omega

theorem blockLoop_serialized (io : DumpIo) {S : Type} (D : Decompressor S)
    (compress pf : ByteStr → ByteStr) (d : Dump)
    (hcomp : d.header.compression_method ≠ CompressionMethod.zlib)
    (hcs : ∀ e ∈ d.get_table_data_entries, e.copy_stmt.isSome = true) :
    ∀ (bs : List (Int × ByteStr)) (fuel : Nat) (o : ByteStr) (cs : List (Option ByteStr)),
      (∀ b ∈ bs, b.1.natAbs < 256 ^ io.int_size ∧ b.2.length < 256 ^ io.int_size) →
      bs.length + 1 ≤ fuel →
      ∃ o2 : ByteStr,
        blockLoop io D compress pf d fuel ⟨serializeBlocks io bs ++ [4], o, cs⟩ =
          PRes.ok () ⟨[], o2, cs ++ expectedCalls d bs⟩ := by
  intro bs
  induction bs with
  | nil =>
    intro fuel o cs _ hf
    match fuel, hf with
    | fuel + 1, _ =>
      refine ⟨o ++ [4], ?_⟩
      simp [blockLoop, serializeBlocks, expectedCalls, readE, pyRead, writeE]
  | cons b bs ih =>
    intro fuel o cs hrep hf
    match fuel, hf with
    | fuel + 1, hf =>
      obtain ⟨id, p⟩ := b
      have hid : id.natAbs < 256 ^ io.int_size := (hrep (id, p) (by simp)).1
      have hp : p.length < 256 ^ io.int_size := (hrep (id, p) (by simp)).2
      have hinput : serializeBlocks io ((id, p) :: bs) ++ [4] =
          1 :: (io.write_int id ++ (io.write_int (p.length : Int) ++
            (p ++ (serializeBlocks io bs ++ [4])))) := by
        simp [serializeBlocks, serializeBlock, List.append_assoc]
      have hri : io.read_int (io.write_int id ++ (io.write_int (p.length : Int) ++
          (p ++ (serializeBlocks io bs ++ [4])))) =
          Except.ok (id, io.write_int (p.length : Int) ++
            (p ++ (serializeBlocks io bs ++ [4]))) :=
        read_write_int io id _ hid
      rw [hinput]
      have hbt1 : (pyRead 1 (1 :: (io.write_int id ++ (io.write_int (p.length : Int) ++
          (p ++ (serializeBlocks io bs ++ [4])))))).1 = [1] := by
        simp [pyRead]
      have hbt2 : (pyRead 1 (1 :: (io.write_int id ++ (io.write_int (p.length : Int) ++
          (p ++ (serializeBlocks io bs ++ [4])))))).2 =
          io.write_int id ++ (io.write_int (p.length : Int) ++
            (p ++ (serializeBlocks io bs ++ [4]))) := by
        simp [pyRead]
      simp only [blockLoop, readE, hbt1, hbt2, reduceIte, readIntE, hri]
      by_cases hmem : id ∈ tableDataIds d
      · obtain ⟨w, hw⟩ := Option.isSome_iff_exists.mp (copyStmtLookup_isSome d id hmem hcs)
        simp only [if_pos hmem, hw, callProc]
        have hpb : processBlock io D compress pf id d.header.compression_method
            ⟨io.write_int (p.length : Int) ++ (p ++ (serializeBlocks io bs ++ [4])), o,
              cs ++ [some w]⟩ =
            PRes.ok () ⟨serializeBlocks io bs ++ [4],
              o ++ [1] ++ io.write_int id ++ io.write_int ((pf p).length : Int) ++ pf p,
              (cs ++ [some w]) ++ [some p]⟩ := by
          unfold processBlock
          rw [if_neg hcomp]
          exact processUncompressedBlock_exact io pf id p (serializeBlocks io bs ++ [4]) o
            (cs ++ [some w]) hp
        simp only [hpb]
        obtain ⟨o2, hih⟩ := ih fuel
          (o ++ [1] ++ io.write_int id ++ io.write_int ((pf p).length : Int) ++ pf p)
          ((cs ++ [some w]) ++ [some p])
          (fun x hx => hrep x (List.mem_cons_of_mem _ hx)) (by simpa using hf)
        refine ⟨o2, ?_⟩
        rw [hih]
        simp only [expectedCalls, if_pos hmem, hw, List.append_assoc, List.cons_append,
          List.nil_append]
        rw [if_neg (show ([1] : ByteStr) ≠ [] from by simp)]
      · simp only [if_neg hmem]
        have hpt := passThroughBlock_exact io [1] id p (serializeBlocks io bs ++ [4]) o cs hp
        simp only [hpt]
        obtain ⟨o2, hih⟩ := ih fuel
          (o ++ [1] ++ io.write_int id ++ io.write_int (p.length : Int) ++ p) cs
          (fun x hx => hrep x (List.mem_cons_of_mem _ hx)) (by simpa using hf)
        refine ⟨o2, ?_⟩
        rw [hih]
        simp only [expectedCalls, if_neg hmem, List.nil_append]
        rw [if_neg (show ([1] : ByteStr) ≠ [] from by simp)]

/-! #### Chunk-framed ZLIB payloads, for the Zlib side of the amended C5 -/

/-- On-wire form of a list of payload chunks:
each chunk as `write_int(len(chunk)) | chunk`. -/
def serializeChunks (io : DumpIo) : List ByteStr → ByteStr
  | [] => []
  | c :: cs => io.write_int (c.length : Int) ++ (c ++ serializeChunks io cs)

/-- The decompression the chunk loop performs on a chunk list: feed
`remaining_chunk + chunk` to the decompressor at every step, carry the
`unconsumed_tail`, and concatenate the produced plaintext pieces. -/
def feedChunks {S : Type} (D : Decompressor S) :
    S → ByteStr → List ByteStr → Except String (S × ByteStr)
  | dstate, _, [] => Except.ok (dstate, [])
  | dstate, remaining_chunk, c :: cs =>
    match D.decompress dstate (remaining_chunk ++ c) with
    | Except.error e => Except.error e
    | Except.ok (dstate', out, tail) =>
      match feedChunks D dstate' tail cs with
      | Except.error e => Except.error e
      | Except.ok (dfin, outs) => Except.ok (dfin, out ++ outs)

/-- Shape of a chunk list ended by the short-chunk terminal condition: all
chunks before the last have at least the 4096 chunk budget, the last is
non-empty and strictly below it. -/
def chunksAb : List ByteStr → Bool
  | [] => false
  | [c] => decide (0 < c.length) && decide (c.length < 4096)
  | c :: cs => decide (4096 ≤ c.length) && chunksAb cs

/-- A chunk-framed ZLIB payload: its chunks, and whether the wire form ends
with an explicit zero-size chunk (then every chunk has at least the 4096
budget) or relies on the short-chunk terminal condition. -/
structure ZChunks where
  chunks : List ByteStr
  zeroTerminated : Bool
deriving DecidableEq, Repr

/-- The on-wire bytes of a chunk-framed payload. -/
def ZChunks.wire (z : ZChunks) (io : DumpIo) : ByteStr :=
  serializeChunks io z.chunks ++ (if z.zeroTerminated then io.write_int 0 else [])

/-- Well-formedness: the framing ends exactly at the terminal chunk the
engine stops at. -/
def ZChunks.wfb (z : ZChunks) : Bool :=
  if z.zeroTerminated then z.chunks.all (fun c => decide (4096 ≤ c.length))
  else chunksAb z.chunks

/-- The plaintext the engine recovers from a chunk-framed payload: feed all
chunks from the fresh decompressor state, then flush; absent when a
decompression step or the flush fails. -/
def zlibPlainChunks {S : Type} (D : Decompressor S) (z : ZChunks) : Option ByteStr :=
  match feedChunks D D.init [] z.chunks with
  | Except.error _ => Option.none
  | Except.ok (dstate, outs) =>
    match D.flush dstate with
    | Except.error _ => Option.none
    | Except.ok fin => some (outs ++ fin)

/-- A well-formed `DATA` block of a Zlib dump: a chunk-framed payload for a
TABLE-DATA dump id, a size-prefixed raw payload for any other dump id. -/
inductive ZWireBlock where
  | table (dump_id : Int) (z : ZChunks)
  | plain (dump_id : Int) (payload : ByteStr)
deriving DecidableEq, Repr

def serializeZBlock (io : DumpIo) : ZWireBlock → ByteStr
  | ZWireBlock.table dump_id z => [1] ++ io.write_int dump_id ++ z.wire io
  | ZWireBlock.plain dump_id p =>
    [1] ++ io.write_int dump_id ++ io.write_int (p.length : Int) ++ p

def serializeZBlocks (io : DumpIo) : List ZWireBlock → ByteStr
  | [] => []
  | b :: bs => serializeZBlock io b ++ serializeZBlocks io bs

/-- Side conditions on one Zlib-dump block: ids match the TABLE-DATA set and
fit the integer codec, chunk and payload sizes fit the codec, the framing is
well formed and the decompressor accepts the payload. -/
def zBlockOk (io : DumpIo) {S : Type} (D : Decompressor S) (d : Dump) :
    ZWireBlock → Bool
  | ZWireBlock.table dump_id z =>
    decide (dump_id ∈ tableDataIds d) && decide (dump_id.natAbs < 256 ^ io.int_size) &&
      z.wfb && decide (∀ c ∈ z.chunks, c.length < 256 ^ io.int_size) &&
      (zlibPlainChunks D z).isSome
  | ZWireBlock.plain dump_id p =>
    decide (dump_id ∉ tableDataIds d) && decide (dump_id.natAbs < 256 ^ io.int_size) &&
      decide (p.length < 256 ^ io.int_size)

/-- The transformer calls the block loop performs on a Zlib dump: for a
TABLE-DATA block the looked-up copy statement and then the recovered
plaintext; nothing for any other block. -/
def expectedCallsZ {S : Type} (D : Decompressor S) (d : Dump) :
    List ZWireBlock → List (Option ByteStr)
  | [] => []
  | ZWireBlock.table dump_id z :: bs =>
    [copyStmtLookup d dump_id, zlibPlainChunks D z] ++ expectedCallsZ D d bs
  | ZWireBlock.plain _ _ :: bs => expectedCallsZ D d bs

theorem serializeChunks_length_ge (io : DumpIo) :
    ∀ cs : List ByteStr, cs.length ≤ (serializeChunks io cs).length := by
  intro cs
  induction cs with
  | nil => simp [serializeChunks]
  | cons c cs ih =>
    simp only [serializeChunks, List.length_cons, List.length_append]
    have := write_int_length io (c.length : Int)
    omega

theorem serializeZBlocks_length_ge (io : DumpIo) :
    ∀ bs : List ZWireBlock, bs.length ≤ (serializeZBlocks io bs).length := by
  intro bs
  induction bs with
  | nil => simp [serializeZBlocks]
  | cons b bs ih =>
    rcases b with ⟨dump_id, z⟩ | ⟨dump_id, p⟩ <;>
      simp only [serializeZBlocks, serializeZBlock, List.length_cons, List.length_append,
        List.cons_append, List.nil_append] <;> omega

theorem chunkLoop_chunksA (io : DumpIo) {S : Type} (D : Decompressor S) :
    ∀ (chunks : List ByteStr) (fuel : Nat) (dstate : S) (rem acc rest o : ByteStr)
      (cc : List (Option ByteStr)) (dfin : S) (outs : ByteStr),
      chunksAb chunks = true →
      (∀ c ∈ chunks, c.length < 256 ^ io.int_size) →
      feedChunks D dstate rem chunks = Except.ok (dfin, outs) →
      chunks.length ≤ fuel →
      chunkLoop io D fuel dstate rem acc ⟨serializeChunks io chunks ++ rest, o, cc⟩ =
        PRes.ok (dfin, acc ++ outs) ⟨rest, o, cc⟩ := by
  intro chunks
  induction chunks with
  | nil =>
    intro fuel dstate rem acc rest o cc dfin outs hA
    simp [chunksAb] at hA
  | cons c cs ih =>
    intro fuel dstate rem acc rest o cc dfin outs hA hrep hfeed hfuel
    match fuel, hfuel with
    | fuel + 1, hfuel2 =>
      have hc : c.length < 256 ^ io.int_size := hrep c (by simp)
      have hri : io.read_int (io.write_int (c.length : Int) ++
          (c ++ (serializeChunks io cs ++ rest))) =
          Except.ok ((c.length : Int), c ++ (serializeChunks io cs ++ rest)) :=
        read_write_int io _ _ (by simpa using hc)
      have hinput : serializeChunks io (c :: cs) ++ rest =
          io.write_int (c.length : Int) ++ (c ++ (serializeChunks io cs ++ rest)) := by
        simp [serializeChunks, List.append_assoc]
      have htake : (pyRead (c.length : Int) (c ++ (serializeChunks io cs ++ rest))).1 = c := by
        unfold pyRead
        rw [if_neg (by omega)]
        simp [List.take_left]
      have hdrop : (pyRead (c.length : Int) (c ++ (serializeChunks io cs ++ rest))).2 =
          serializeChunks io cs ++ rest := by
        unfold pyRead
        rw [if_neg (by omega)]
        simp [List.drop_left]
      rw [hinput]
      simp only [feedChunks] at hfeed
      split at hfeed
      case _ e heq => exact Except.noConfusion hfeed
      case _ dstate' out tail hdec =>
        cases cs with
        | nil =>
          simp only [chunksAb, Bool.and_eq_true, decide_eq_true_eq] at hA
          simp only [feedChunks] at hfeed
          injection hfeed with hfeed'
          injection hfeed' with h1 h2
          subst h1
          have hc0 : ¬ ((c.length : Nat) : Int) = 0 := by omega
          simp only [chunkLoop, readIntE, hri, if_neg hc0, readE, htake, hdrop]
          rw [if_neg (by simp)]
          simp only [hdec]
          rw [if_pos (by unfold ZLIB_CHUNK_SIZE; omega)]
          rw [← h2]
          simp [serializeChunks]
        | cons c2 cs2 =>
          simp only [chunksAb, Bool.and_eq_true, decide_eq_true_eq] at hA
          split at hfeed
          case _ e heq => exact Except.noConfusion hfeed
          case _ dfin' outs' hfeed2 =>
            injection hfeed with hfeed'
            injection hfeed' with h1 h2
            subst h1
            have hc0 : ¬ ((c.length : Nat) : Int) = 0 := by
              have h4096 : (4096 : Nat) ≤ c.length := hA.1
              omega
            simp only [chunkLoop, readIntE, hri, if_neg hc0, readE, htake, hdrop]
            rw [if_neg (by simp)]
            simp only [hdec]
            rw [if_neg (by
              unfold ZLIB_CHUNK_SIZE
              have h4096 : (4096 : Nat) ≤ c.length := hA.1
              omega)]
            rw [ih fuel dstate' tail (acc ++ out) rest o cc dfin' outs' hA.2
              (fun x hx => hrep x (List.mem_cons_of_mem _ hx)) hfeed2
              (by simp only [List.length_cons] at hfuel2 ⊢; omega)]
            rw [← h2]
            simp [List.append_assoc]

theorem chunkLoop_chunksB (io : DumpIo) {S : Type} (D : Decompressor S) :
    ∀ (chunks : List ByteStr) (fuel : Nat) (dstate : S) (rem acc rest o : ByteStr)
      (cc : List (Option ByteStr)) (dfin : S) (outs : ByteStr),
      chunks.all (fun c => decide (4096 ≤ c.length)) = true →
      (∀ c ∈ chunks, c.length < 256 ^ io.int_size) →
      feedChunks D dstate rem chunks = Except.ok (dfin, outs) →
      chunks.length + 1 ≤ fuel →
      chunkLoop io D fuel dstate rem acc
          ⟨serializeChunks io chunks ++ (io.write_int 0 ++ rest), o, cc⟩ =
        PRes.ok (dfin, acc ++ outs) ⟨rest, o, cc⟩ := by
  intro chunks
  induction chunks with
  | nil =>
    intro fuel dstate rem acc rest o cc dfin outs _ _ hfeed hfuel
    match fuel, hfuel with
    | fuel + 1, hfuel2 =>
      simp only [feedChunks] at hfeed
      injection hfeed with hfeed'
      injection hfeed' with h1 h2
      subst h1
      have hri : io.read_int (io.write_int 0 ++ rest) = Except.ok ((0 : Int), rest) :=
        read_write_int io 0 rest (by simp only [Int.natAbs_zero]; positivity)
      simp only [serializeChunks, List.nil_append, chunkLoop, readIntE, hri]
      rw [← h2]
      simp
  | cons c cs ih =>
    intro fuel dstate rem acc rest o cc dfin outs hB hrep hfeed hfuel
    match fuel, hfuel with
    | fuel + 1, hfuel2 =>
      simp only [List.all_cons, Bool.and_eq_true, decide_eq_true_eq] at hB
      have hc : c.length < 256 ^ io.int_size := hrep c (by simp)
      have hri : io.read_int (io.write_int (c.length : Int) ++
          (c ++ (serializeChunks io cs ++ (io.write_int 0 ++ rest)))) =
          Except.ok ((c.length : Int), c ++ (serializeChunks io cs ++ (io.write_int 0 ++ rest))) :=
        read_write_int io _ _ (by simpa using hc)
      have hinput : serializeChunks io (c :: cs) ++ (io.write_int 0 ++ rest) =
          io.write_int (c.length : Int) ++
            (c ++ (serializeChunks io cs ++ (io.write_int 0 ++ rest))) := by
        simp [serializeChunks, List.append_assoc]
      have htake : (pyRead (c.length : Int)
          (c ++ (serializeChunks io cs ++ (io.write_int 0 ++ rest)))).1 = c := by
        unfold pyRead
        rw [if_neg (by omega)]
        simp [List.take_left]
      have hdrop : (pyRead (c.length : Int)
          (c ++ (serializeChunks io cs ++ (io.write_int 0 ++ rest)))).2 =
          serializeChunks io cs ++ (io.write_int 0 ++ rest) := by
        unfold pyRead
        rw [if_neg (by omega)]
        simp [List.drop_left]
      rw [hinput]
      simp only [feedChunks] at hfeed
      split at hfeed
      case _ e heq => exact Except.noConfusion hfeed
      case _ dstate' out tail hdec =>
        split at hfeed
        case _ e heq => exact Except.noConfusion hfeed
        case _ dfin' outs' hfeed2 =>
          injection hfeed with hfeed'
          injection hfeed' with h1 h2
          subst h1
          have hc0 : ¬ ((c.length : Nat) : Int) = 0 := by
            have h4096 : (4096 : Nat) ≤ c.length := hB.1
            omega
          simp only [chunkLoop, readIntE, hri, if_neg hc0, readE, htake, hdrop]
          rw [if_neg (by simp)]
          simp only [hdec]
          rw [if_neg (by
            unfold ZLIB_CHUNK_SIZE
            have h4096 : (4096 : Nat) ≤ c.length := hB.1
            omega)]
          rw [ih fuel dstate' tail (acc ++ out) rest o cc dfin' outs' hB.2
            (fun x hx => hrep x (List.mem_cons_of_mem _ hx)) hfeed2
            (by simp only [List.length_cons] at hfuel2 ⊢; omega)]
          rw [← h2]
          simp [List.append_assoc]

theorem processCompressedBlock_chunked (io : DumpIo) {S : Type} (D : Decompressor S)
    (compress pf : ByteStr → ByteStr) (dump_id : Int) (z : ZChunks)
    (rest o : ByteStr) (cc : List (Option ByteStr)) (plain : ByteStr)
    (hwf : z.wfb = true)
    (hrep : ∀ c ∈ z.chunks, c.length < 256 ^ io.int_size)
    (hplain : zlibPlainChunks D z = some plain) :
    processCompressedBlock io D compress pf dump_id ⟨z.wire io ++ rest, o, cc⟩ =
      PRes.ok () ⟨rest, o ++ [1] ++ io.write_int dump_id ++
        io.write_int ((compress (pf plain)).length : Int) ++ compress (pf plain),
        cc ++ [some plain]⟩ := by
  unfold zlibPlainChunks at hplain
  split at hplain
  case _ e heq => exact Option.noConfusion hplain
  case _ dfin outs hfeed =>
    split at hplain
    case _ e heq => exact Option.noConfusion hplain
    case _ fin hfl =>
      injection hplain with h1
      subst h1
      have hloop : chunkLoop io D ((z.wire io ++ rest).length + 1) D.init [] []
          ⟨z.wire io ++ rest, o, cc⟩ = PRes.ok (dfin, [] ++ outs) ⟨rest, o, cc⟩ := by
        rcases z with ⟨chunks, zt⟩
        cases zt with
        | false =>
          have hw : (ZChunks.mk chunks false).wire io ++ rest =
              serializeChunks io chunks ++ rest := by
            simp [ZChunks.wire]
          rw [hw]
          have hA : chunksAb chunks = true := by simpa [ZChunks.wfb] using hwf
          exact chunkLoop_chunksA io D chunks _ D.init [] [] rest o cc dfin outs hA hrep hfeed
            (by
              have hg := serializeChunks_length_ge io chunks
              simp only [List.length_append]
              omega)
        | true =>
          have hw : (ZChunks.mk chunks true).wire io ++ rest =
              serializeChunks io chunks ++ (io.write_int 0 ++ rest) := by
            simp [ZChunks.wire, List.append_assoc]
          rw [hw]
          have hB : chunks.all (fun c => decide (4096 ≤ c.length)) = true := by
            simpa [ZChunks.wfb] using hwf
          exact chunkLoop_chunksB io D chunks _ D.init [] [] rest o cc dfin outs hB hrep hfeed
            (by
              have hg := serializeChunks_length_ge io chunks
              have hw0 := write_int_length io 0
              simp only [List.length_append]
              omega)
      unfold processCompressedBlock
      simp only [hloop, hfl, callProc, writeDataBlock, writeE, List.nil_append]

theorem blockLoop_serialized_zlib (io : DumpIo) {S : Type} (D : Decompressor S)
    (compress pf : ByteStr → ByteStr) (d : Dump)
    (hcomp : d.header.compression_method = CompressionMethod.zlib)
    (hcs : ∀ e ∈ d.get_table_data_entries, e.copy_stmt.isSome = true) :
    ∀ (zbs : List ZWireBlock) (fuel : Nat) (o : ByteStr) (cc : List (Option ByteStr)),
      (∀ b ∈ zbs, zBlockOk io D d b = true) →
      zbs.length + 1 ≤ fuel →
      ∃ o2 : ByteStr,
        blockLoop io D compress pf d fuel ⟨serializeZBlocks io zbs ++ [4], o, cc⟩ =
          PRes.ok () ⟨[], o2, cc ++ expectedCallsZ D d zbs⟩ := by
  intro zbs
  induction zbs with
  | nil =>
    intro fuel o cc _ hf
    match fuel, hf with
    | fuel + 1, _ =>
      refine ⟨o ++ [4], ?_⟩
      simp [blockLoop, serializeZBlocks, expectedCallsZ, readE, pyRead, writeE]
  | cons b bs ih =>
    intro fuel o cc hok hf
    match fuel, hf with
    | fuel + 1, hf2 =>
      rcases b with ⟨id, z⟩ | ⟨id, p⟩
      · have hb := hok (ZWireBlock.table id z) (by simp)
        simp only [zBlockOk, Bool.and_eq_true, decide_eq_true_eq] at hb
        obtain ⟨⟨⟨⟨hmem, hid⟩, hwf⟩, hrep⟩, hisSome⟩ := hb
        obtain ⟨plain, hplain⟩ := Option.isSome_iff_exists.mp hisSome
        obtain ⟨w, hw⟩ := Option.isSome_iff_exists.mp (copyStmtLookup_isSome d id hmem hcs)
        have hinput : serializeZBlocks io (ZWireBlock.table id z :: bs) ++ [4] =
            1 :: (io.write_int id ++ (z.wire io ++ (serializeZBlocks io bs ++ [4]))) := by
          simp [serializeZBlocks, serializeZBlock, List.append_assoc]
        have hri : io.read_int (io.write_int id ++
            (z.wire io ++ (serializeZBlocks io bs ++ [4]))) =
            Except.ok (id, z.wire io ++ (serializeZBlocks io bs ++ [4])) :=
          read_write_int io id _ hid
        rw [hinput]
        have hbt1 : (pyRead 1 (1 :: (io.write_int id ++
            (z.wire io ++ (serializeZBlocks io bs ++ [4]))))).1 = [1] := by
          simp [pyRead]
        have hbt2 : (pyRead 1 (1 :: (io.write_int id ++
            (z.wire io ++ (serializeZBlocks io bs ++ [4]))))).2 =
            io.write_int id ++ (z.wire io ++ (serializeZBlocks io bs ++ [4])) := by
          simp [pyRead]
        simp only [blockLoop, readE, hbt1, hbt2, reduceIte, readIntE, hri]
        simp only [if_pos hmem, hw, callProc]
        have hpb : processBlock io D compress pf id d.header.compression_method
            ⟨z.wire io ++ (serializeZBlocks io bs ++ [4]), o, cc ++ [some w]⟩ =
            PRes.ok () ⟨serializeZBlocks io bs ++ [4],
              o ++ [1] ++ io.write_int id ++
                io.write_int ((compress (pf plain)).length : Int) ++ compress (pf plain),
              (cc ++ [some w]) ++ [some plain]⟩ := by
          unfold processBlock
          rw [if_pos hcomp]
          exact processCompressedBlock_chunked io D compress pf id z
            (serializeZBlocks io bs ++ [4]) o (cc ++ [some w]) plain hwf hrep hplain
        simp only [hpb]
        obtain ⟨o2, hih⟩ := ih fuel
          (o ++ [1] ++ io.write_int id ++
            io.write_int ((compress (pf plain)).length : Int) ++ compress (pf plain))
          ((cc ++ [some w]) ++ [some plain])
          (fun x hx => hok x (List.mem_cons_of_mem _ hx))
          (by simp only [List.length_cons] at hf2 ⊢; omega)
        refine ⟨o2, ?_⟩
        rw [hih]
        simp only [expectedCallsZ, hw, hplain, List.append_assoc, List.cons_append,
          List.nil_append]
        rw [if_neg (show ([1] : ByteStr) ≠ [] from by simp)]
      · have hb := hok (ZWireBlock.plain id p) (by simp)
        simp only [zBlockOk, Bool.and_eq_true, decide_eq_true_eq] at hb
        obtain ⟨⟨hnmem, hid⟩, hp⟩ := hb
        have hinput : serializeZBlocks io (ZWireBlock.plain id p :: bs) ++ [4] =
            1 :: (io.write_int id ++ (io.write_int (p.length : Int) ++
              (p ++ (serializeZBlocks io bs ++ [4])))) := by
          simp [serializeZBlocks, serializeZBlock, List.append_assoc]
        have hri : io.read_int (io.write_int id ++ (io.write_int (p.length : Int) ++
            (p ++ (serializeZBlocks io bs ++ [4])))) =
            Except.ok (id, io.write_int (p.length : Int) ++
              (p ++ (serializeZBlocks io bs ++ [4]))) :=
          read_write_int io id _ hid
        rw [hinput]
        have hbt1 : (pyRead 1 (1 :: (io.write_int id ++ (io.write_int (p.length : Int) ++
            (p ++ (serializeZBlocks io bs ++ [4])))))).1 = [1] := by
          simp [pyRead]
        have hbt2 : (pyRead 1 (1 :: (io.write_int id ++ (io.write_int (p.length : Int) ++
            (p ++ (serializeZBlocks io bs ++ [4])))))).2 =
            io.write_int id ++ (io.write_int (p.length : Int) ++
              (p ++ (serializeZBlocks io bs ++ [4]))) := by
          simp [pyRead]
        simp only [blockLoop, readE, hbt1, hbt2, reduceIte, readIntE, hri]
        simp only [if_neg hnmem]
        have hpt := passThroughBlock_exact io [1] id p (serializeZBlocks io bs ++ [4]) o cc hp
        simp only [hpt]
        obtain ⟨o2, hih⟩ := ih fuel
          (o ++ [1] ++ io.write_int id ++ io.write_int (p.length : Int) ++ p) cc
          (fun x hx => hok x (List.mem_cons_of_mem _ hx))
          (by simp only [List.length_cons] at hf2 ⊢; omega)
        refine ⟨o2, ?_⟩
        rw [hih]
        simp only [expectedCallsZ]
        rw [if_neg (show ([1] : ByteStr) ≠ [] from by simp)]

/-- C5 (amended): for every dump and every post-TOC stream consisting of
well-formed `DATA` blocks followed by `END` (no BLOBS blocks — their handling
is broken, see C2), the transformer receives exactly: every distinct COMMENT
definition once, before any block is read; and, for each `DATA` block whose
dump id is a TABLE-DATA dump id, the looked-up copy statement followed by
that block's payload plaintext — under `Zlib` the concatenated decompressed
chunk stream plus the decompressor flush (with the chunk framing ending at
the terminal chunk the engine stops at: a chunk shorter than the 4096 budget,
or a zero-size chunk), and under every other compression method the raw
size-prefixed payload.  Blocks with other dump ids contribute no transformer
calls.  This corrects the frozen claim, which allowed no invocations beyond
the TABLE-DATA payloads. -/
theorem c5_amended_thm (io : DumpIo) {S : Type} (D : Decompressor S)
    (compress pf : ByteStr → ByteStr) (d : Dump)
    (hcomm : ∀ c ∈ commentDefns d, c.isSome = true)
    (hcs : ∀ e ∈ d.get_table_data_entries, e.copy_stmt.isSome = true) :
    (∀ (bs : List (Int × ByteStr)) (o : ByteStr),
      d.header.compression_method ≠ CompressionMethod.zlib →
      (∀ b ∈ bs, b.1.natAbs < 256 ^ io.int_size ∧ b.2.length < 256 ^ io.int_size) →
      ∃ st2 : ProcState,
        processDataBlocks io D compress pf d ⟨serializeBlocks io bs ++ [4], o, []⟩ =
          PRes.ok () st2 ∧
        st2.calls = commentDefns d ++ expectedCalls d bs) ∧
    (∀ (zbs : List ZWireBlock) (o : ByteStr),
      d.header.compression_method = CompressionMethod.zlib →
      (∀ b ∈ zbs, zBlockOk io D d b = true) →
      ∃ st2 : ProcState,
        processDataBlocks io D compress pf d ⟨serializeZBlocks io zbs ++ [4], o, []⟩ =
          PRes.ok () st2 ∧
        st2.calls = commentDefns d ++ expectedCallsZ D d zbs) := by
  constructor
  · intro bs o hcomp hrep
    unfold processDataBlocks
    rw [processComments_spec pf (commentDefns d) ⟨serializeBlocks io bs ++ [4], o, []⟩ hcomm]
    have hfuel : bs.length + 1 ≤
        ((⟨serializeBlocks io bs ++ [4], o,
          [] ++ commentDefns d⟩ : ProcState)).input.length + 1 := by
      simp only [List.length_append]
      have := serializeBlocks_length_ge io bs
      omega
    obtain ⟨o2, hbl⟩ := blockLoop_serialized io D compress pf d hcomp hcs bs
      (((⟨serializeBlocks io bs ++ [4], o,
        [] ++ commentDefns d⟩ : ProcState)).input.length + 1)
      o ([] ++ commentDefns d) hrep hfuel
    refine ⟨⟨[], o2, ([] ++ commentDefns d) ++ expectedCalls d bs⟩, ?_, ?_⟩
    · exact hbl
    · simp
  · intro zbs o hcomp hok
    unfold processDataBlocks
    rw [processComments_spec pf (commentDefns d) ⟨serializeZBlocks io zbs ++ [4], o, []⟩ hcomm]
    have hfuel : zbs.length + 1 ≤
        ((⟨serializeZBlocks io zbs ++ [4], o,
          [] ++ commentDefns d⟩ : ProcState)).input.length + 1 := by
      simp only [List.length_append]
      have := serializeZBlocks_length_ge io zbs
      omega
    obtain ⟨o2, hbl⟩ := blockLoop_serialized_zlib io D compress pf d hcomp hcs zbs
      (((⟨serializeZBlocks io zbs ++ [4], o,
        [] ++ commentDefns d⟩ : ProcState)).input.length + 1)
      o ([] ++ commentDefns d) hok hfuel
    refine ⟨⟨[], o2, ([] ++ commentDefns d) ++ expectedCallsZ D d zbs⟩, ?_, ?_⟩
    · exact hbl
    · simp

/-- A TABLE-DATA TOC entry with dump id 5 and copy statement `[67]`. -/
def tableEntryC5W : TocEntry :=
  { dump_id := 5, section_ := SectionType.data, had_dumper := true,
    desc := some TABLE_DATA, copy_stmt := some [67] }

/-- A dump with one COMMENT entry and one TABLE-DATA entry. -/
def dumpC5W : Dump := ⟨hdrNone, [commentEntry, tableEntryC5W]⟩

/-- A dump header with compression method `Zlib`. -/
def hdrZlib : Header :=
  ⟨MAGIC_HEADER, (1, 14, 0), [], [], [], CompressionMethod.zlib, ⟨2024, 1, 1, 0, 0, 0⟩, 4, 8⟩

/-- A Zlib dump with one COMMENT entry and one TABLE-DATA entry. -/
def dumpC5Z : Dump := ⟨hdrZlib, [commentEntry, tableEntryC5W]⟩

/-- Witness for the amended C5, exercising both compression regimes: under
compression `None`, a TABLE-DATA block (dump id 5, payload `[7]`) and another
block (dump id 6, payload `[8]`); under `Zlib`, a TABLE-DATA block whose
payload is a single short chunk `[7, 7]` and another size-prefixed block.
Both dumps carry one COMMENT entry and the TABLE-DATA entry with a copy
statement. -/
theorem c5_amended_witness :
    (∃ st2 : ProcState,
      processDataBlocks ⟨4, 8⟩ idDecomp (fun b => b) (fun b => b) dumpC5W
          ⟨serializeBlocks ⟨4, 8⟩ [(5, [7]), (6, [8])] ++ [4], [], []⟩ =
        PRes.ok () st2 ∧
      st2.calls = commentDefns dumpC5W ++ expectedCalls dumpC5W [(5, [7]), (6, [8])]) ∧
    (∃ st2 : ProcState,
      processDataBlocks ⟨4, 8⟩ idDecomp (fun b => b) (fun b => b) dumpC5Z
          ⟨serializeZBlocks ⟨4, 8⟩
            [ZWireBlock.table 5 ⟨[[7, 7]], false⟩, ZWireBlock.plain 6 [8]] ++ [4], [], []⟩ =
        PRes.ok () st2 ∧
      st2.calls = commentDefns dumpC5Z ++
        expectedCallsZ idDecomp dumpC5Z
          [ZWireBlock.table 5 ⟨[[7, 7]], false⟩, ZWireBlock.plain 6 [8]]) :=
  ⟨(c5_amended_thm ⟨4, 8⟩ idDecomp (fun b => b) (fun b => b) dumpC5W
      (by decide) (by decide)).1 [(5, [7]), (6, [8])] [] (by decide) (by decide),
   (c5_amended_thm ⟨4, 8⟩ idDecomp (fun b => b) (fun b => b) dumpC5Z
      (by decide) (by decide)).2
      [ZWireBlock.table 5 ⟨[[7, 7]], false⟩, ZWireBlock.plain 6 [8]] [] (by decide) (by decide)⟩

/-! ### TOC optional-string collapsing (C10) -/

theorem orNone_ne_some_nil (s : ByteStr) : orNone s ≠ some [] := by
  unfold orNone
  split
  · simp
  · intro hc
    injection hc with hc'
    simp_all

/-- C10: every optional string field of a successfully parsed `TocEntry`
(`tag`, `desc`, `defn`, `drop_stmt`, `copy_stmt`, `namespace`, `tablespace`,
`owner`, `with_oids`, `table_oid`, `oid`) is never the present-but-empty
string: the `x or None` idiom collapses an empty on-wire string to an absent
field, so consumers cannot distinguish empty from missing. -/
theorem c10_thm (io : DumpIo) (version : Version) (s : ByteStr) (e : TocEntry)
    (rest : ByteStr) (h : parseEntry io version s = Except.ok (e, rest)) :
    e.tag ≠ some [] ∧ e.desc ≠ some [] ∧ e.defn ≠ some [] ∧ e.drop_stmt ≠ some [] ∧
    e.copy_stmt ≠ some [] ∧ e.namespace_ ≠ some [] ∧ e.tablespace ≠ some [] ∧
    e.owner ≠ some [] ∧ e.with_oids ≠ some [] ∧ e.table_oid ≠ some [] ∧
    e.oid ≠ some [] := by
  unfold parseEntry at h
  repeat' split at h
  all_goals
    first
    | exact Except.noConfusion h
    | (cases h
       exact ⟨orNone_ne_some_nil _, orNone_ne_some_nil _, orNone_ne_some_nil _,
         orNone_ne_some_nil _, orNone_ne_some_nil _, orNone_ne_some_nil _,
         orNone_ne_some_nil _, orNone_ne_some_nil _, orNone_ne_some_nil _,
         orNone_ne_some_nil _, orNone_ne_some_nil _⟩)

/-- The on-wire bytes of one version-(1,12,0) TOC entry whose optional
strings are all empty (dump id 1, section 2, data_state 1, offset 0). -/
def sampleEntryBytes : ByteStr :=
  [0, 1, 0, 0, 0] ++ List.replicate 25 0 ++ [0, 2, 0, 0, 0] ++
    List.replicate 40 0 ++ [1] ++ List.replicate 8 0

/-- The entry `sampleEntryBytes` parses to: all optional strings absent. -/
def sampleEntry : TocEntry :=
  { dump_id := 1, section_ := SectionType.data, had_dumper := false, data_state := 1 }

/-- Witness for C10 on a concrete all-empty-strings entry. -/
theorem c10_witness :
    sampleEntry.tag ≠ some [] ∧ sampleEntry.desc ≠ some [] ∧
    sampleEntry.defn ≠ some [] ∧ sampleEntry.drop_stmt ≠ some [] ∧
    sampleEntry.copy_stmt ≠ some [] ∧ sampleEntry.namespace_ ≠ some [] ∧
    sampleEntry.tablespace ≠ some [] ∧ sampleEntry.owner ≠ some [] ∧
    sampleEntry.with_oids ≠ some [] ∧ sampleEntry.table_oid ≠ some [] ∧
    sampleEntry.oid ≠ some [] :=
  c10_thm ⟨4, 8⟩ (1, 12, 0) sampleEntryBytes sampleEntry [] (by rfl)

/-! ### Driver retry behaviour (C3) -/

/-- A first upstream chunk: valid magic, version (1,14,0), sizes 4 and 8,
format discriminator 3. -/
def c3chunk : ByteStr := MAGIC_HEADER ++ [1, 14, 0, 4, 8, 3]

/-- C3 counterexample: with format discriminator 3 the driver does NOT abort
with `UnsupportedFormat`: every parse attempt fails with the format error
(second conjunct), the driver retries on it and consumes the next upstream
chunk, and after the upstream is exhausted the surfaced error is the
header/TOC `UnexpectedEof` — so the retry is not restricted to
`UnexpectedEof` failures and no `UnsupportedFormat` ever reaches the caller. -/
theorem c3_counterexample :
    parseHeaderAndToc ⟨4, 8⟩ [c3chunk, [0]] [] =
      Except.error "Unexpected EOF while reading header/TOC" ∧
    parseAttempt ⟨4, 8⟩ c3chunk = Except.error "Unsupported format" :=
  ⟨by rfl, by rfl⟩

/-- C3 (amended): the driver retries header+TOC parsing with an additional
upstream chunk after ANY parse failure, not only `UnexpectedEof`; it gives up
only when the upstream is exhausted, and then the error is always the
header/TOC `UnexpectedEof`.  In particular an input with format
discriminator 3 fails every attempt with `UnsupportedFormat`, is retried
until end of upstream, and surfaces `UnexpectedEof`. -/
theorem c3_amended_thm (io : DumpIo) :
    ∀ (upstream : List ByteStr) (buffer : ByteStr),
      (∀ pre suf, upstream = pre ++ suf →
        exceptIsOk (parseAttempt io (buffer ++ pre.flatten)) = false) →
      parseHeaderAndToc io upstream buffer =
        Except.error "Unexpected EOF while reading header/TOC" := by
  intro upstream
  induction upstream with
  | nil => intro buffer _; rfl
  | cons chunk rest ih =>
    intro buffer hfail
    by_cases hc : chunk = []
    · simp [parseHeaderAndToc, hc]
    · simp only [parseHeaderAndToc, if_neg hc]
      rcases hpa : parseAttempt io (buffer ++ chunk) with e | val
      · simp only [hpa]
        exact ih (buffer ++ chunk) (fun pre suf hps => by
          have hall := hfail (chunk :: pre) suf (by rw [hps]; rfl)
          simpa [List.append_assoc] using hall)
      · exfalso
        have h1 := hfail [chunk] rest rfl
        rw [show buffer ++ List.flatten [chunk] = buffer ++ chunk by simp] at h1
        rw [hpa] at h1
        simp [exceptIsOk] at h1

/-- Witness for the amended C3 on the format-discriminator-3 chunk. -/
theorem c3_amended_witness :
    parseHeaderAndToc ⟨4, 8⟩ [c3chunk] [] =
      Except.error "Unexpected EOF while reading header/TOC" :=
  c3_amended_thm ⟨4, 8⟩ [c3chunk] [] (by
    intro pre suf hps
    cases pre with
    | nil => rfl
    | cons c pre2 =>
      cases pre2 with
      | nil =>
        have hc : c = c3chunk := by
          injection hps with h1 h2
          exact h1.symm
        subst hc
        rfl
      | cons c2 pre3 =>
        exfalso
        injection hps with h1 h2
        simp at h2)

end Pgdumb
